import Mathlib

/-! Verification of the index-and-retrieval core of the SearchEngine repository.

The Python sources are shallowly embedded: Python `str` becomes `List Char`,
Python `float` becomes `ℚ`, Python dicts become association lists whose order
mirrors dict insertion order, and Python's `sorted` (a stable sort) becomes a
stable insertion sort.  `numpy.log`, an external collaborator, is a `log`
parameter of the scoring functions; theorems quantify over it, and concrete
evaluations instantiate it with `logModel`, a function sharing with the natural
logarithm every property the engine relies on (zero at one, monotone, positive
exactly above one).  NLTK is optional in the source and absent in deployment;
the embedding follows the deterministic fallback path of
`utils/text_processing.py`. -/

set_option allowUnsafeReducibility true
attribute [semireducible] Rat.add Rat.mul Rat.inv Rat.sub Rat.div Rat.ofScientific Rat.normalize Rat.neg
set_option maxRecDepth 40000

/-- Python strings are modelled as lists of characters. -/
abbrev Str := List Char

/-- Shorthand to write a `Str` literal. -/
def pyStr (s : String) : Str := s.data

/-- Python regex `\w` (word character), ASCII core. -/
def isWordChar (c : Char) : Bool := c.isAlphanum || c = '_'

/-- Python regex `\s` / `str.split()` whitespace, ASCII core. -/
def isSpaceChar (c : Char) : Bool :=
  c = ' ' || c = '\n' || c = '\t' || c = '\r' || c = '\x0b' || c = '\x0c'

/-- Python `str.lower()`. -/
def lowerStr (s : Str) : Str := s.map Char.toLower

/-- Python `str.strip()`. -/
def trimStr (s : Str) : Str :=
  ((s.dropWhile isSpaceChar).reverse.dropWhile isSpaceChar).reverse

/-- One left-to-right pass of `re.sub(r'&\w+;', ' ', text)`
(`text_processing.tokenize`).  The fuel argument, initialised with the length
of the text, makes the recursion structural; it never runs out because every
step consumes at least one character. -/
def stripEntitiesGo : Nat → Str → Str
  | _, [] => []
  | 0, l => l
  | fuel + 1, c :: rest =>
    if c = '&' then
      let w := rest.takeWhile isWordChar
      let r := rest.dropWhile isWordChar
      if w ≠ [] ∧ r.head? = some ';' then ' ' :: stripEntitiesGo fuel r.tail
      else c :: stripEntitiesGo fuel rest
    else c :: stripEntitiesGo fuel rest

/-- `re.sub(r'&\w+;', ' ', text)`. -/
def stripEntities (s : Str) : Str := stripEntitiesGo s.length s

/-- Length of the match of `https?://\S+` at the head of `l`, if any. -/
def urlMatchLen (l : Str) : Option Nat :=
  if (pyStr "https://").isPrefixOf l ∧ (l.drop 8).head?.any (fun c => !(isSpaceChar c)) then
    some (8 + ((l.drop 8).takeWhile (fun c => !(isSpaceChar c))).length)
  else if (pyStr "http://").isPrefixOf l ∧ (l.drop 7).head?.any (fun c => !(isSpaceChar c)) then
    some (7 + ((l.drop 7).takeWhile (fun c => !(isSpaceChar c))).length)
  else none

/-- One left-to-right pass of `re.sub(r'https?://\S+', ' ', text)`, fuelled as
in `stripEntitiesGo`. -/
def stripUrlsGo : Nat → Str → Str
  | _, [] => []
  | 0, l => l
  | fuel + 1, c :: rest =>
    match urlMatchLen (c :: rest) with
    | some n => ' ' :: stripUrlsGo fuel ((c :: rest).drop n)
    | none => c :: stripUrlsGo fuel rest

/-- `re.sub(r'https?://\S+', ' ', text)`. -/
def stripUrls (s : Str) : Str := stripUrlsGo s.length s

/-- `re.sub(r'[^\w\s-]', ' ', text)`: every character that is not a word
character, whitespace or a hyphen becomes a space. -/
def removePunct (s : Str) : Str :=
  s.map (fun c => if isWordChar c || isSpaceChar c || c = '-' then c else ' ')

/-- Python `str.split()` with no argument: split on whitespace runs, dropping
empty pieces.  `cur` holds the current word reversed. -/
def splitWsGo : Str → Str → List Str
  | [], cur => if cur = [] then [] else [cur.reverse]
  | c :: rest, cur =>
    if isSpaceChar c then
      if cur = [] then splitWsGo rest [] else cur.reverse :: splitWsGo rest []
    else splitWsGo rest (c :: cur)

/-- Python `str.split()`. -/
def splitWs (s : Str) : List Str := splitWsGo s []

/-- `text_processing.tokenize`, fallback path (no NLTK): lower-case, drop HTML
entities, URLs and punctuation, break hyphens, split on whitespace, and keep
only tokens longer than one character. -/
def tokenize (text : Str) : List Str :=
  if text = [] then []
  else
    let t := removePunct (stripUrls (stripEntities (lowerStr text)))
    let t := t.map (fun c => if c = '-' then ' ' else c)
    (splitWs t).filter (fun tok => tok.length > 1)

/-- `" ".join(parts)`. -/
def joinSpaces (parts : List Str) : Str := List.intercalate [' '] parts

/-- `text_processing.expand_query`, fallback path: the tokens of each
whitespace phrase, followed by the original phrases that are new and longer
than one character, joined by spaces. -/
def expandQuery (query : Str) : Str :=
  let q := trimStr (lowerStr query)
  let phrases := splitWs q
  let tokens := (phrases.map tokenize).flatten
  let expanded := phrases.foldl
    (fun acc p => if p ∈ acc ∨ ¬ p.length > 1 then acc else acc ++ [p]) tokens
  joinSpaces expanded

/-- The extra prepositions/conjunctions ignored by
`text_processing.identify_main_terms` beyond the stopword set. -/
def additionalIgnoreWords : List Str :=
  [pyStr "for", pyStr "with", pyStr "about", pyStr "from", pyStr "into", pyStr "during",
   pyStr "after", pyStr "before", pyStr "without", pyStr "under", pyStr "over",
   pyStr "between", pyStr "through", pyStr "against", pyStr "among", pyStr "throughout",
   pyStr "towards", pyStr "upon", pyStr "concerning", pyStr "of", pyStr "to", pyStr "in",
   pyStr "on", pyStr "at", pyStr "by", pyStr "as", pyStr "via", pyStr "onto",
   pyStr "within", pyStr "along"]

/-- `text_processing.identify_main_terms`: tokens of length at least five among
the non-ignored tokens, else length at least four, else all non-ignored
tokens, with the first and last non-ignored token appended when missing. -/
def identifyMainTerms (stopwords : List Str) (query : Str) : List Str :=
  if query = [] then []
  else
    let tokens := tokenize (trimStr (lowerStr query))
    let ignored := fun t : Str => stopwords.contains t || additionalIgnoreWords.contains t
    let nonStop := tokens.filter (fun t => !(ignored t))
    if nonStop = [] then tokens
    else
      let long := nonStop.filter (fun t => t.length ≥ 5)
      let base :=
        if long ≠ [] then long
        else
          let med := nonStop.filter (fun t => t.length ≥ 4)
          if med ≠ [] then med else nonStop
      let withFirst :=
        match tokens.find? (fun t => !(ignored t)) with
        | some t => if t ∈ base then base else base ++ [t]
        | none => base
      match tokens.reverse.find? (fun t => !(ignored t)) with
      | some t => if t ∈ withFirst then withFirst else withFirst ++ [t]
      | none => withFirst

/-- The fallback stopword set of `text_processing.load_stopwords`, used when no
stopword file exists. -/
def defaultStopwords : List Str :=
  [pyStr "a", pyStr "an", pyStr "the", pyStr "and", pyStr "or", pyStr "but", pyStr "if",
   pyStr "because", pyStr "as", pyStr "what", pyStr "when", pyStr "where", pyStr "how",
   pyStr "who", pyStr "which", pyStr "this", pyStr "that", pyStr "these", pyStr "those",
   pyStr "is", pyStr "are", pyStr "was", pyStr "were", pyStr "be", pyStr "been",
   pyStr "being", pyStr "have", pyStr "has", pyStr "had", pyStr "do", pyStr "does",
   pyStr "did", pyStr "for", pyStr "of", pyStr "on", pyStr "in", pyStr "to",
   pyStr "from", pyStr "with"]

/-- Python substring test `needle in hay`. -/
def isSubstr (needle : Str) : Str → Bool
  | [] => needle == []
  | c :: t => needle.isPrefixOf (c :: t) || isSubstr needle t

/-! Dictionaries.  Python dicts are association lists; insertion order (which
Python preserves and which matters for tie-breaking in the stable sort) is the
append order. -/

/-- `d.get(k)`: the value at the first occurrence of key `k`. -/
def lookup (l : List (Str × α)) (k : Str) : Option α :=
  (l.find? (fun p => p.1 == k)).map Prod.snd

/-- `k in d`. -/
def hasKey (l : List (Str × α)) (k : Str) : Bool := l.any (fun p => p.1 == k)

/-- `d.get(k, 0.0)`. -/
def getQ (l : List (Str × ℚ)) (k : Str) : ℚ := (lookup l k).getD 0

/-- `d[k] += x` on a `defaultdict(float)`: update in place when present,
append `(k, x)` otherwise. -/
def addTo (l : List (Str × ℚ)) (k : Str) (x : ℚ) : List (Str × ℚ) :=
  if hasKey l k then l.map (fun p => if p.1 == k then (p.1, p.2 + x) else p)
  else l ++ [(k, x)]

/-- `d[k].add(t)` on a `defaultdict(set)`; the set is a duplicate-free list. -/
def presenceAdd (l : List (Str × List Str)) (k : Str) (t : Str) : List (Str × List Str) :=
  if hasKey l k then
    l.map (fun p => if p.1 == k then (p.1, if t ∈ p.2 then p.2 else p.2 ++ [t]) else p)
  else l ++ [(k, [t])]

/-- `d.get(k, set())` as a list. -/
def presenceGet (l : List (Str × List Str)) (k : Str) : List Str := (lookup l k).getD []

/-! The index state shared by `SearchIndexer` (indexer.py) and
`OptimizedSearchIndexer` (optimized_indexer.py): the four index structures,
the stopword set, and the configuration fields the engines read. -/

/-- One entry of `document_map`.  `confidence` and `method` are present only
for indexes built from classified documents, hence optional. -/
structure DocInfo where
  url : Str
  title : Str
  description : Str
  content_snippet : Str
  confidence : Option ℚ
  method : Option Str
  deriving DecidableEq, Repr

/-- The in-memory index plus configuration of an indexer instance. -/
structure IndexState where
  document_map : List (Str × DocInfo)
  inverted_index : List (Str × List (Str × ℚ))
  document_lengths : List (Str × ℚ)
  average_doc_length : ℚ
  stopwords : List Str
  min_token_length : Nat
  max_token_length : Nat
  title_boost : ℚ
  meta_boost : ℚ
  use_hybrid_search : Bool
  deriving DecidableEq

/-- BM25 `k1` (term-frequency saturation), 1.2 in both engines. -/
def k1 : ℚ := 6/5

/-- BM25 `b` (length normalisation), 0.75 in both engines. -/
def bParam : ℚ := 3/4

/-- `idf = max(0, log((N - n + 0.5) / (n + 0.5)))`, with `log` the external
`numpy.log` collaborator passed as a parameter. -/
def idfQ (log : ℚ → ℚ) (N n : Nat) : ℚ :=
  max 0 (log (((N : ℚ) - (n : ℚ) + 1/2) / ((n : ℚ) + 1/2)))

/-- The BM25 term-frequency component
`((k1+1)*tf) / (k1*(1 - b + b*doc_len/avg_len) + tf)`. -/
def tfComponent (tf docLen avgLen : ℚ) : ℚ :=
  ((k1 + 1) * tf) / (k1 * (1 - bParam + bParam * docLen / avgLen) + tf)

/-- The token filter applied to query tokens and to document field tokens:
drop stopwords and tokens outside the configured length bounds. -/
def filterTokens (st : IndexState) (toks : List Str) : List Str :=
  toks.filter (fun t =>
    !(st.stopwords.contains t) && (st.min_token_length ≤ t.length && t.length ≤ st.max_token_length))

/-- The filtered expanded-query tokens, computed identically by both engines:
`tokenize(expand_query(query))` pushed through the token filter. -/
def queryFiltered (st : IndexState) (query : Str) : List Str :=
  filterTokens st (tokenize (expandQuery query))

/-! Stable sorting.  `sorted(scores.items(), key=lambda x: x[1], reverse=True)`
is Python's stable sort by score descending; a stable sort is unique as a
function, so it is modelled by stable insertion sort. -/

/-- Insert into a descending-sorted list, before the first entry of
less-or-equal score (so earlier entries win ties, as in a stable sort). -/
def insertDesc (x : Str × ℚ) : List (Str × ℚ) → List (Str × ℚ)
  | [] => [x]
  | y :: ys => if x.2 ≥ y.2 then x :: y :: ys else y :: insertDesc x ys

/-- Stable sort by score, descending. -/
def sortDesc : List (Str × ℚ) → List (Str × ℚ)
  | [] => []
  | x :: xs => insertDesc x (sortDesc xs)

/-- `max(scores.values())` (0 on an empty dict, a case both engines guard). -/
def maxScore : List (Str × ℚ) → ℚ
  | [] => 0
  | p :: t => t.foldl (fun m q => max m q.2) p.2

/-- Score normalisation as written in both engines: when the dict is nonempty
and its maximum is positive, divide every value by the maximum; otherwise
leave the dict unchanged. -/
def normalizeScores (scores : List (Str × ℚ)) : List (Str × ℚ) :=
  if scores ≠ [] ∧ 0 < maxScore scores then
    scores.map (fun p => (p.1, p.2 / maxScore scores))
  else scores

/-! The plain engine: `SearchIndexer` of search_engine/indexer/indexer.py. -/

/-- The BM25 accumulation loop of `SearchIndexer._calculate_bm25_scores`
(lines 383-403): for each query term found in the inverted index, add
`idf * tf_component * term_importance` to the score of every document of its
posting list that has a recorded length. -/
def accumScoresPlain (st : IndexState) (log : ℚ → ℚ) (queryTokens origTokens : List Str) :
    List (Str × ℚ) :=
  queryTokens.foldl (fun scores qt =>
    match lookup st.inverted_index qt with
    | none => scores
    | some postings =>
      let idf := idfQ log st.document_map.length postings.length
      let imp : ℚ := if qt ∈ origTokens then 9/5 else 1
      postings.foldl (fun sc p =>
        match lookup st.document_lengths p.1 with
        | none => sc
        | some dl => addTo sc p.1 (idf * tfComponent p.2 dl st.average_doc_length * imp))
        scores) []

/-- The exact-phrase boost chain of the plain engine (indexer.py lines
413-419): 1.8 for a title hit, else 1.5 for a description hit, else 1.3 for a
content hit, else no boost. -/
def phraseBoostPlain (origQuery title desc content : Str) : ℚ :=
  if isSubstr origQuery title then 9/5
  else if isSubstr origQuery desc then 3/2
  else if isSubstr origQuery content then 13/10
  else 1

/-- The post-hoc boost factor of the plain engine (indexer.py lines 405-441),
as the product of the sequential `*=` factors: exact phrase, graduated
title/description token-match boosts, and the all-terms-in-content proximity
boost. -/
def docBoostPlain (origQuery : Str) (origTokens : List Str) (info : DocInfo) : ℚ :=
  let title := lowerStr info.title
  let desc := lowerStr info.description
  let content := lowerStr info.content_snippet
  let f1 := phraseBoostPlain origQuery title desc content
  let titlePct : ℚ := (origTokens.countP (fun t => isSubstr t title) : ℚ) / (origTokens.length : ℚ)
  let descPct : ℚ := (origTokens.countP (fun t => isSubstr t desc) : ℚ) / (origTokens.length : ℚ)
  let f2 := if origTokens ≠ [] ∧ 0 < titlePct then 1 + titlePct * 2 else 1
  let f3 := if origTokens ≠ [] ∧ 0 < descPct then 1 + descPct * 1 else 1
  let f4 := if origTokens.length > 1 ∧ origTokens.all (fun t => isSubstr t content) then 5/4 else 1
  f1 * f2 * f3 * f4

/-- `SearchIndexer._calculate_bm25_scores`: accumulate, then multiply the
score of every scored document appearing in the document map by its boost
factor. -/
def calcBM25Plain (st : IndexState) (log : ℚ → ℚ) (queryTokens origTokens : List Str)
    (origQuery : Str) : List (Str × ℚ) :=
  (accumScoresPlain st log queryTokens origTokens).map (fun p =>
    match lookup st.document_map p.1 with
    | some info => (p.1, p.2 * docBoostPlain origQuery origTokens info)
    | none => p)

/-- The window starts `range(0, content_len - 200, 20)` of
`SearchIndexer._generate_relevant_snippet`. -/
def windowStarts (contentLen : Nat) : List Nat :=
  if contentLen ≤ 200 then [] else (List.range ((contentLen - 200 + 19) / 20)).map (· * 20)

/-- `SearchIndexer._generate_relevant_snippet`: slide a 200-character window by
20, keep the first window containing the most query tokens; fall back to the
head of the content. -/
def generateRelevantSnippet (info : DocInfo) (queryTokens : List Str) : Str :=
  let content := info.content_snippet
  if content = [] ∨ queryTokens = [] then content
  else
    let contentLower := lowerStr content
    let best := (windowStarts content.length).foldl
      (fun (bc : Nat × Nat) i =>
        let window := (contentLower.drop i).take 200
        let count := queryTokens.countP (fun t => isSubstr t window)
        if count > bc.2 then (i, count) else bc) (0, 0)
    if best.2 > 0 then ((content.drop best.1).take 200) ++ pyStr "..."
    else if content.length > 200 then content.take 200 ++ pyStr "..."
    else content

/-- A result row of the plain engine. -/
structure PlainResult where
  url : Str
  title : Str
  description : Str
  content_snippet : Str
  score : ℚ
  deriving DecidableEq, Repr

/-- The result-formatting loop of `SearchIndexer.search` (lines 330-342):
keep the documents of the top list that are in the document map with score
above 0.05. -/
def formatPlain (st : IndexState) (origTokens : List Str) :
    List (Str × ℚ) → List PlainResult → List PlainResult
  | [], acc => acc
  | (d, s) :: rest, acc =>
    match lookup st.document_map d with
    | some info =>
      if s > 1/20 then
        formatPlain st origTokens rest (acc ++
          [{ url := info.url, title := info.title, description := info.description,
             content_snippet := generateRelevantSnippet info origTokens, score := s }])
      else formatPlain st origTokens rest acc
    | none => formatPlain st origTokens rest acc

/-- `SearchIndexer.search`: empty-query guard, expansion, token filtering,
BM25 with boosts, normalisation, stable descending sort, truncation to
`top_k`, and result formatting. -/
def searchPlain (st : IndexState) (log : ℚ → ℚ) (query : Str) (topK : Nat) : List PlainResult :=
  if trimStr query = [] then []
  else
    let origQuery := trimStr (lowerStr query)
    let origTokens := tokenize query
    let filtered := queryFiltered st query
    if filtered = [] then []
    else
      let scores := normalizeScores (calcBM25Plain st log filtered origTokens origQuery)
      formatPlain st origTokens ((sortDesc scores).take topK) []

/-! The optimized engine: `OptimizedSearchIndexer` of
search_engine/indexer/optimized_indexer.py. -/

/-- Distance between two naturals. -/
def natDist (a b : Nat) : Nat := if a ≥ b then a - b else b - a

/-- Whether `re.finditer(r'\b' + term + r'\b', text)` matches at position `i`
(terms produced by `tokenize` consist of word characters only, so `\b` means:
no word character just before and just after the occurrence). -/
def matchesAt (text pat : Str) (i : Nat) : Bool :=
  ((text.drop i).take pat.length == pat)
  && (i == 0 || !(isWordChar (text.getD (i - 1) ' ')))
  && (text.length ≤ i + pat.length || !(isWordChar (text.getD (i + pat.length) ' ')))

/-- All match positions of a term in a text (word-character terms cannot
overlap across `\b` boundaries, so these are the `finditer` starts). -/
def findPositions (text pat : Str) : List Nat :=
  (List.range text.length).filter (matchesAt text pat)

/-- Python `min(positions, key=lambda x: abs(x - pos1))`: the first position
of minimal distance to `pos1`. -/
def closestPos (pos1 : Nat) : List Nat → Nat
  | [] => 0
  | p :: ps => ps.foldl (fun best x => if natDist x pos1 < natDist best pos1 then x else best) p

/-- The inner loop of `_calculate_term_proximity` for one anchor position of
the first term: walk the remaining terms, keeping the maximal distance to the
nearest occurrence of each, and give up (`none`) as soon as a distance exceeds
a quarter of the text length. -/
def proximityInner (text : Str) (pos1 : Nat) : List Str → Nat → Option Nat
  | [], maxd => some maxd
  | t :: rest, maxd =>
    let d := natDist (closestPos pos1 (findPositions text t)) pos1
    if d > text.length / 4 then none
    else proximityInner text pos1 rest (max maxd d)

/-- `OptimizedSearchIndexer._calculate_term_proximity`: 0 when a term never
occurs (or the inputs are trivial, or every anchor fails the quarter-length
cutoff); otherwise `1 - min(min_distance, mm)/mm` with
`mm = min(100, len(text) // 2)`. -/
def termProximity (text : Str) (terms : List Str) : ℚ :=
  if terms = [] ∨ text = [] then 0
  else if terms.any (fun t => findPositions text t == []) then 0
  else
    match terms with
    | [] => 0
    | t0 :: rest =>
      match (findPositions text t0).foldl
        (fun (cur : Option Nat) pos1 =>
          match proximityInner text pos1 rest 0 with
          | none => cur
          | some m =>
            match cur with
            | none => some m
            | some c => if m < c then some m else some c) none with
      | none => 0
      | some md =>
        1 - ((min md (min 100 (text.length / 2)) : Nat) : ℚ)
          / ((min 100 (text.length / 2) : Nat) : ℚ)

/-- `OptimizedSearchIndexer._get_main_term_document_presence`: which documents
contain which main terms, read off the inverted index. -/
def mainTermDocumentPresence (st : IndexState) (mainTerms : List Str) :
    List (Str × List Str) :=
  mainTerms.foldl (fun pres term =>
    match lookup st.inverted_index term with
    | none => pres
    | some postings => postings.foldl (fun pr p => presenceAdd pr p.1 term) pres) []

/-- The BM25 accumulation loop of `OptimizedSearchIndexer._calculate_bm25_scores`
(lines 372-399), which also records which scored documents contain which main
terms.  `term_importance` is 2.5 for a main term, further multiplied by 1.8
for a literal token of the original query. -/
def accumScoresOpt (st : IndexState) (log : ℚ → ℚ)
    (queryTokens origTokens mainTerms : List Str) :
    List (Str × ℚ) × List (Str × List Str) :=
  queryTokens.foldl (fun acc qt =>
    match lookup st.inverted_index qt with
    | none => acc
    | some postings =>
      let idf := idfQ log st.document_map.length postings.length
      let imp0 : ℚ := if qt ∈ mainTerms then 5/2 else 1
      let imp : ℚ := if qt ∈ origTokens then imp0 * (9/5) else imp0
      postings.foldl (fun (ac : List (Str × ℚ) × List (Str × List Str)) p =>
        match lookup st.document_lengths p.1 with
        | none => ac
        | some dl =>
          (addTo ac.1 p.1 (idf * tfComponent p.2 dl st.average_doc_length * imp),
           if qt ∈ mainTerms then presenceAdd ac.2 p.1 qt else ac.2))
        acc) (([], []))

/-- The exact-phrase boost chain of the optimized engine
(optimized_indexer.py lines 409-415): 2.0 for a title hit, else 1.7 for a
description hit, else 1.4 for a content hit, else no boost. -/
def phraseBoostOpt (origQuery title desc content : Str) : ℚ :=
  if isSubstr origQuery title then 2
  else if isSubstr origQuery desc then 17/10
  else if isSubstr origQuery content then 7/5
  else 1

/-- The post-hoc boost factor of the optimized engine (optimized_indexer.py
lines 401-471), as the product of the sequential `*=` factors: exact phrase,
main-term title/description fractions, literal-token title/description
fractions, term proximity, and main-term coverage.  `presenceCount` is the
number of main terms the scoring loop saw in the document. -/
def docBoostOpt (origQuery : Str) (mainTerms origTokens : List Str)
    (presenceCount : Nat) (info : DocInfo) : ℚ :=
  let title := lowerStr info.title
  let desc := lowerStr info.description
  let content := lowerStr info.content_snippet
  let f1 := phraseBoostOpt origQuery title desc content
  let mtPct : ℚ := (mainTerms.countP (fun t => isSubstr t title) : ℚ) / (mainTerms.length : ℚ)
  let mdPct : ℚ := (mainTerms.countP (fun t => isSubstr t desc) : ℚ) / (mainTerms.length : ℚ)
  let f2 := if mainTerms ≠ [] ∧ 0 < mtPct then 1 + mtPct * (5/2) else 1
  let f3 := if mainTerms ≠ [] ∧ 0 < mdPct then 1 + mdPct * (3/2) else 1
  let tPct : ℚ := (origTokens.countP (fun t => isSubstr t title) : ℚ) / (origTokens.length : ℚ)
  let dPct : ℚ := (origTokens.countP (fun t => isSubstr t desc) : ℚ) / (origTokens.length : ℚ)
  let f4 := if origTokens ≠ [] ∧ 0 < tPct then 1 + tPct * 2 else 1
  let f5 := if origTokens ≠ [] ∧ 0 < dPct then 1 + dPct * 1 else 1
  let prox := termProximity content mainTerms
  let f6 := if mainTerms.length > 1 ∧ content ≠ [] ∧ 0 < prox then 1 + prox * (1/2) else 1
  let f7 :=
    if mainTerms ≠ [] ∧ presenceCount = mainTerms.length then 3
    else if mainTerms ≠ [] ∧ (mainTerms.length : ℚ) * (3/4) ≤ (presenceCount : ℚ) then 2
    else if mainTerms ≠ [] ∧ (mainTerms.length : ℚ) * (1/2) ≤ (presenceCount : ℚ) then 3/2
    else if mainTerms ≠ [] ∧ (presenceCount : ℚ) < (mainTerms.length : ℚ) * (1/2) then 7/10
    else 1
  f1 * f2 * f3 * f4 * f5 * f6 * f7

/-- `OptimizedSearchIndexer._calculate_bm25_scores`: accumulate, then multiply
the score of every scored document appearing in the document map by its boost
factor. -/
def calcBM25Opt (st : IndexState) (log : ℚ → ℚ)
    (queryTokens origTokens mainTerms : List Str) (origQuery : Str) : List (Str × ℚ) :=
  let acc := accumScoresOpt st log queryTokens origTokens mainTerms
  acc.1.map (fun p =>
    match lookup st.document_map p.1 with
    | some info =>
      (p.1, p.2 * docBoostOpt origQuery mainTerms origTokens (presenceGet acc.2 p.1).length info)
    | none => p)

/-- The scanning loop shared by the snippet truncation of
`OptimizedSearchIndexer.search` (lines 324-336, `max_chars = 200`) and
`optimize_index.truncate_content_snippet`: the break position, if the loop
breaks (at the third newline, or at index `maxChars`). -/
def truncScan (maxChars : Nat) : Str → Nat → Nat → Option Nat
  | [], _, _ => none
  | c :: rest, i, nl =>
    if c = '\n' then
      if nl + 1 ≥ 3 then some i
      else if i ≥ maxChars then some i
      else truncScan maxChars rest (i + 1) (nl + 1)
    else if i ≥ maxChars then some i
    else truncScan maxChars rest (i + 1) nl

/-- Snippet truncation to at most 3 lines or `maxChars` characters, with a
`"..."` marker (`truncate_content_snippet`, also inlined in
`OptimizedSearchIndexer.search`). -/
def truncateSnippet (maxChars : Nat) (s : Str) : Str :=
  if s = [] then []
  else
    match truncScan maxChars s 0 0 with
    | some e =>
      if e > 0 then s.take e ++ pyStr "..."
      else if s.length > maxChars then s.take maxChars ++ pyStr "..."
      else s
    | none => if s.length > maxChars then s.take maxChars ++ pyStr "..." else s

/-- The URL substrings excluded by `OptimizedSearchIndexer.search`. -/
def excludedDomains : List Str :=
  [pyStr "open.spotify.com", pyStr "spotify.com",
   pyStr "podcasts.apple.com", pyStr "podcasts.google.com"]

/-- A result row of the optimized engine. -/
structure OptResult where
  url : Str
  title : Str
  description : Str
  content_snippet : Str
  score : ℚ
  main_terms_matched : Nat
  search_method : Str
  deriving DecidableEq, Repr

/-- The result-formatting loop of `OptimizedSearchIndexer.search` (lines
306-356): walk the top documents; keep those in the document map with score
above 0.08, skip excluded domains, skip documents that contain some but fewer
than `minRequired` main terms, truncate the snippet, and stop once `topK`
results are collected. -/
def formatOpt (st : IndexState) (mainTerms : List Str) (presence : List (Str × List Str))
    (minRequired topK : Nat) : List (Str × ℚ) → List OptResult → List OptResult
  | [], acc => acc
  | (d, s) :: rest, acc =>
    match lookup st.document_map d with
    | none => formatOpt st mainTerms presence minRequired topK rest acc
    | some info =>
      if s > 2/25 then
        if excludedDomains.any (fun dom => isSubstr dom (lowerStr info.url)) then
          formatOpt st mainTerms presence minRequired topK rest acc
        else if mainTerms ≠ [] ∧ hasKey presence d ∧ (presenceGet presence d).length < minRequired then
          formatOpt st mainTerms presence minRequired topK rest acc
        else
          let acc' := acc ++
            [{ url := info.url, title := info.title, description := info.description,
               content_snippet := truncateSnippet 200 info.content_snippet, score := s,
               main_terms_matched := if mainTerms ≠ [] then (presenceGet presence d).length else 0,
               search_method := if st.use_hybrid_search then pyStr "Hybrid BM25+BERT" else pyStr "BM25" }]
          if acc'.length ≥ topK then acc' else formatOpt st mainTerms presence minRequired topK rest acc'
      else formatOpt st mainTerms presence minRequired topK rest acc

/-- BERT weight of the hybrid combination, `BERT_CONFIG["hybrid_weight"]`. -/
def bertWeight : ℚ := 3/10

/-- `OptimizedSearchIndexer.search`.  The outcome of the vector-layer call
`self.bert_embeddings.search(query, top_k*3)` is an external collaborator:
`Except.ok` carries its `(doc_id, similarity)` list, `Except.error` models an
exception, which the engine catches by falling back to the raw BM25 scores.
The union of the two key sets is walked BM25 keys first (Python iterates a
hash set here; the order only moves ties of the stable sort). -/
def searchOpt (st : IndexState) (log : ℚ → ℚ) (query : Str) (topK : Nat)
    (bertOutcome : Except Unit (List (Str × ℚ))) : List OptResult :=
  if trimStr query = [] then []
  else
    let origQuery := trimStr (lowerStr query)
    let origTokens := tokenize query
    let mainTerms := identifyMainTerms st.stopwords query
    let filtered := queryFiltered st query
    if filtered = [] then []
    else
      let bm25 := calcBM25Opt st log filtered origTokens mainTerms origQuery
      let scores :=
        if st.use_hybrid_search then
          match bertOutcome with
          | Except.ok bertScores =>
            let nbm25 := normalizeScores bm25
            let allIds := nbm25.map Prod.fst
              ++ (bertScores.map Prod.fst).filter (fun d => !(hasKey nbm25 d))
            allIds.map (fun d =>
              (d, (1 - bertWeight) * getQ nbm25 d + bertWeight * getQ bertScores d))
          | Except.error _ => bm25
        else normalizeScores bm25
      let presence := mainTermDocumentPresence st mainTerms
      let minRequired := max 1 (mainTerms.length / 2)
      formatOpt st mainTerms presence minRequired topK ((sortDesc scores).take (topK * 3)) []

/-- `OptimizedSearchIndexer.load_optimized_index`, reduced to the state logic
the claims need: the hybrid flag is the conjunction of the request and the
success of the vector-layer load (`BertEmbeddings.load_index` returns `False`
when `faiss_index.bin` or `doc_ids.json` is absent, and an exception while
initialising the layer is caught; both clear the flag). -/
def loadOptimizedIndex (st : IndexState) (requestHybrid bertLoadOk : Bool) : IndexState :=
  { st with use_hybrid_search := requestHybrid && bertLoadOk }

/-- `BertEmbeddings.search`'s conversion of a FAISS L2 distance to a
similarity, `1 / (1 + distance)`. -/
def bertSimilarity (distance : ℚ) : ℚ := 1 / (1 + distance)

/-! The optimizer: `OptimizedSearchIndexer._optimize_index` and
`optimize_index.py`. -/

/-- The per-document transform of `_optimize_index` (lines 120-130): truncate
the snippet to 100 characters and drop the `confidence` and `method` fields. -/
def truncateDocInfo (info : DocInfo) : DocInfo :=
  { info with
    content_snippet := info.content_snippet.take 100
    confidence := none
    method := none }

/-- `OptimizedSearchIndexer._optimize_index`: remove every term whose posting
list is shorter than 2, truncate snippets, drop serve-time-unneeded fields.
Document lengths and the average length are untouched. -/
def optimizeIndex (st : IndexState) : IndexState :=
  { st with
    inverted_index := st.inverted_index.filter (fun p => p.2.length ≥ 2),
    document_map := st.document_map.map (fun p => (p.1, truncateDocInfo p.2)) }

/-- The snippet pre-pass of `optimize_index.optimize_index`: apply
`truncate_content_snippet` (200 characters / 3 lines) to every document of the
map, before `_optimize_index` runs. -/
def truncateSnippets (st : IndexState) : IndexState :=
  { st with document_map := st.document_map.map (fun p =>
      (p.1, { p.2 with content_snippet := truncateSnippet 200 p.2.content_snippet })) }

/-- The full optimization pipeline run by `optimize_index.py`: the snippet
pre-pass followed by `_optimize_index`. -/
def fullOptimize (st : IndexState) : IndexState := optimizeIndex (truncateSnippets st)

/-! Configuration (utils/config.py) and the engine constructors. -/

/-- The indexer-relevant fields of `INDEXER_CONFIG`; the boost fields are
optional because the constructors read them with `config.get(key, default)`. -/
structure IndexerConfig where
  min_token_length : Nat
  max_token_length : Nat
  title_boost : Option ℚ
  meta_boost : Option ℚ

/-- `INDEXER_CONFIG` of utils/config.py. -/
def INDEXER_CONFIG : IndexerConfig :=
  { min_token_length := 2, max_token_length := 20, title_boost := some 5, meta_boost := some 3 }

/-- `self.title_boost = self.config.get("title_boost", 3.0)` of
`SearchIndexer.__init__`. -/
def initTitleBoost (c : IndexerConfig) : ℚ := c.title_boost.getD 3

/-- `self.meta_boost = self.config.get("meta_boost", 2.0)` of
`SearchIndexer.__init__`. -/
def initMetaBoost (c : IndexerConfig) : ℚ := c.meta_boost.getD 2

/-- A raw crawled document as consumed by `SearchIndexer._process_document`. -/
structure RawDoc where
  url : Str
  title : Str
  meta_description : Str
  content : Str

/-- `SearchIndexer._process_document`: tokenize and filter the three fields,
then accumulate `title_boost` per title token, `meta_boost` per
meta-description token and 1.0 per content token. -/
def processDocument (st : IndexState) (doc : RawDoc) : List (Str × ℚ) :=
  let titleToks := filterTokens st (tokenize doc.title)
  let metaToks := filterTokens st (tokenize doc.meta_description)
  let contentToks := filterTokens st (tokenize doc.content)
  let w1 := titleToks.foldl (fun acc t => addTo acc t st.title_boost) []
  let w2 := metaToks.foldl (fun acc t => addTo acc t st.meta_boost) w1
  contentToks.foldl (fun acc t => addTo acc t 1) w2

/-- A computable stand-in for the external `numpy.log` collaborator, used to
instantiate the `log` parameter in concrete evaluations.  It shares with the
natural logarithm the only properties the engine observes through
`max 0 (log x)`: value 0 at 1, monotonicity, and positivity exactly on inputs
greater than 1. -/
def logModel (x : ℚ) : ℚ := x - 1

/-! Concrete miniature indexes, used to instantiate the theorems below on
closed inputs. -/

/-- Metadata of a filler document (present in the document map only, so it
raises the corpus size `N` without being scored). -/
def fillerInfo : DocInfo :=
  { url := pyStr "example.org/d", title := pyStr "dd", description := [],
    content_snippet := [], confidence := none, method := none }

/-- Nine filler documents. -/
def fillerDocs : List (Str × DocInfo) :=
  (List.range 9).map (fun n => ('d' :: Nat.toDigits 10 n, fillerInfo))

/-- A document whose only indexed term is `zz`: it matches the expanded query
token `zz` of the query `alpha zz beta` but contains neither main term. -/
def docxInfo : DocInfo :=
  { url := pyStr "example.com/x", title := pyStr "xq", description := [],
    content_snippet := pyStr "zz zz", confidence := none, method := none }

/-- An index holding `docx` plus nine fillers, BM25-only mode. -/
def exState : IndexState :=
  { document_map := (pyStr "docx", docxInfo) :: fillerDocs
    inverted_index := [(pyStr "zz", [(pyStr "docx", 1)])]
    document_lengths := [(pyStr "docx", 1)]
    average_doc_length := 1
    stopwords := defaultStopwords
    min_token_length := 2
    max_token_length := 20
    title_boost := 5
    meta_boost := 3
    use_hybrid_search := false }

/-- The row `searchOpt exState logModel "alpha zz beta" 5` returns. -/
def docxResult : OptResult :=
  { url := pyStr "example.com/x", title := pyStr "xq", description := [],
    content_snippet := pyStr "zz zz", score := 1, main_terms_matched := 0,
    search_method := pyStr "BM25" }

/-- A document matching the query `alpha` strongly (title hit). -/
def docaInfo : DocInfo :=
  { url := pyStr "example.com/a", title := pyStr "alpha stuff", description := [],
    content_snippet := pyStr "alpha body text", confidence := none, method := none }

/-- An index holding `doca` plus nine fillers, with hybrid search enabled. -/
def hybridState : IndexState :=
  { document_map := (pyStr "doca", docaInfo) :: fillerDocs
    inverted_index := [(pyStr "alpha", [(pyStr "doca", 5)])]
    document_lengths := [(pyStr "doca", 5)]
    average_doc_length := 5
    stopwords := defaultStopwords
    min_token_length := 2
    max_token_length := 20
    title_boost := 5
    meta_boost := 3
    use_hybrid_search := true }

/-- A document whose title contains the query `zebra`. -/
def doczInfo : DocInfo :=
  { url := pyStr "example.com/z", title := pyStr "zebra zoo", description := [],
    content_snippet := [], confidence := none, method := none }

/-- An index holding `docz` plus nine fillers, BM25-only mode. -/
def zebraState : IndexState :=
  { document_map := (pyStr "docz", doczInfo) :: fillerDocs
    inverted_index := [(pyStr "zebra", [(pyStr "docz", 1)])]
    document_lengths := [(pyStr "docz", 1)]
    average_doc_length := 1
    stopwords := defaultStopwords
    min_token_length := 2
    max_token_length := 20
    title_boost := 5
    meta_boost := 3
    use_hybrid_search := false }

/-- The row `searchPlain zebraState logModel "zebra" 5` returns. -/
def zebraResult : PlainResult :=
  { url := pyStr "example.com/z", title := pyStr "zebra zoo", description := [],
    content_snippet := [], score := 1 }

/-- A 200-character text with `zebra` at position 0 and `quill` at position
60: both terms occur, but their distance 60 exceeds `200 // 4 = 50`. -/
def proximityText : Str :=
  pyStr "zebra" ++ [' '] ++ List.replicate 53 'a' ++ [' '] ++ pyStr "quill" ++ [' ']
    ++ List.replicate 134 'b'

/-- A document carrying `proximityText` as content and nothing else. -/
def proximityInfo : DocInfo :=
  { url := [], title := [], description := [], content_snippet := proximityText,
    confidence := none, method := none }

/-- A 200-character text with `zebra` at 0 and `quill` at 6 (distance 6). -/
def proximityNearText : Str := pyStr "zebra quill" ++ [' '] ++ List.replicate 188 'b'

/-- An inverted index with a one-posting term and a two-posting term, for the
optimizer theorems. -/
def pruneState : IndexState :=
  { document_map := [(pyStr "docx", docxInfo)]
    inverted_index :=
      [(pyStr "rare", [(pyStr "docx", 1)]),
       (pyStr "seen", [(pyStr "docx", 2), (pyStr "docy", 1)])]
    document_lengths := [(pyStr "docx", 3)]
    average_doc_length := 3
    stopwords := []
    min_token_length := 2
    max_token_length := 20
    title_boost := 5
    meta_boost := 3
    use_hybrid_search := false }

/-! Generic lemmas about the dictionary and sorting models. -/

theorem mem_insertDesc {x y : Str × ℚ} {l : List (Str × ℚ)} :
    x ∈ insertDesc y l ↔ x = y ∨ x ∈ l := by
  induction l with
  | nil => simp [insertDesc]
  | cons z t ih =>
    simp only [insertDesc]
    split
    · simp [List.mem_cons]
    · simp only [List.mem_cons, ih]
      tauto

theorem mem_sortDesc {x : Str × ℚ} {l : List (Str × ℚ)} :
    x ∈ sortDesc l ↔ x ∈ l := by
  induction l with
  | nil => simp [sortDesc]
  | cons y t ih => simp [sortDesc, mem_insertDesc, ih]

theorem foldl_max_init_le (t : List (Str × ℚ)) (init : ℚ) :
    init ≤ t.foldl (fun m q => max m q.2) init := by
  induction t generalizing init with
  | nil => simp
  | cons q t ih =>
    simp only [List.foldl_cons]
    exact le_trans (le_max_left init q.2) (ih (max init q.2))

theorem mem_le_foldl_max {p : Str × ℚ} {t : List (Str × ℚ)} (h : p ∈ t) (init : ℚ) :
    p.2 ≤ t.foldl (fun m q => max m q.2) init := by
  induction t generalizing init with
  | nil => cases h
  | cons q t ih =>
    simp only [List.foldl_cons]
    rcases List.mem_cons.1 h with rfl | h'
    · exact le_trans (le_max_right init p.2) (foldl_max_init_le t _)
    · exact ih h' _

theorem le_maxScore {p : Str × ℚ} {l : List (Str × ℚ)} (h : p ∈ l) : p.2 ≤ maxScore l := by
  cases l with
  | nil => cases h
  | cons q t =>
    simp only [maxScore]
    rcases List.mem_cons.1 h with rfl | h'
    · exact foldl_max_init_le t p.2
    · exact mem_le_foldl_max h' _

theorem normalizeScores_bounds {scores : List (Str × ℚ)}
    (h : ∀ p ∈ scores, 0 ≤ p.2) :
    ∀ p ∈ normalizeScores scores, 0 ≤ p.2 ∧ p.2 ≤ 1 := by
  intro p hp
  unfold normalizeScores at hp
  split at hp
  · rename_i hc
    rcases List.mem_map.1 hp with ⟨q, hq, rfl⟩
    constructor
    · exact div_nonneg (h q hq) (le_of_lt hc.2)
    · exact (div_le_one hc.2).2 (le_maxScore hq)
  · rename_i hc
    rcases (not_and_or.1 hc) with hne | hmax
    · rw [not_ne_iff.1 hne] at hp; cases hp
    · have h1 := h p hp
      have h2 := le_maxScore hp
      have h3 : maxScore scores ≤ 0 := le_of_not_lt hmax
      constructor
      · exact h1
      · exact le_trans (le_trans h2 h3) zero_le_one

theorem lookup_eq_none_of_not_hasKey {l : List (Str × α)} {k : Str}
    (h : hasKey l k = false) : lookup l k = none := by
  unfold lookup
  rw [List.find?_eq_none.2]
  · rfl
  · intro p hp
    have := List.any_eq_false.1 h p hp
    simpa using this

theorem mem_of_lookup_eq_some {l : List (Str × α)} {k : Str} {v : α}
    (h : lookup l k = some v) : ∃ p ∈ l, p.1 = k ∧ p.2 = v := by
  unfold lookup at h
  rcases Option.map_eq_some'.1 h with ⟨p, hp, rfl⟩
  refine ⟨p, List.mem_of_find?_eq_some hp, ?_, rfl⟩
  have := List.find?_some hp
  simpa using this

theorem getQ_bounds {l : List (Str × ℚ)} (h : ∀ p ∈ l, 0 ≤ p.2 ∧ p.2 ≤ 1) (k : Str) :
    0 ≤ getQ l k ∧ getQ l k ≤ 1 := by
  unfold getQ
  cases hl : lookup l k with
  | none => simp
  | some v =>
    rcases mem_of_lookup_eq_some hl with ⟨p, hp, _, hv⟩
    simpa [hv] using h p hp

/-! Nonnegativity of the scoring pipeline. -/

theorem idfQ_nonneg (log : ℚ → ℚ) (N n : Nat) : 0 ≤ idfQ log N n := le_max_left 0 _

theorem tfComponent_nonneg {tf docLen avgLen : ℚ}
    (htf : 0 ≤ tf) (hdl : 0 ≤ docLen) (hal : 0 ≤ avgLen) :
    0 ≤ tfComponent tf docLen avgLen := by
  unfold tfComponent k1 bParam
  apply div_nonneg
  · nlinarith
  · have h4 : 0 ≤ 3 / 4 * docLen / avgLen :=
      div_nonneg (by nlinarith) hal
    linarith

theorem addTo_nonneg {l : List (Str × ℚ)} {k : Str} {x : ℚ}
    (h : ∀ p ∈ l, 0 ≤ p.2) (hx : 0 ≤ x) : ∀ p ∈ addTo l k x, 0 ≤ p.2 := by
  intro p hp
  unfold addTo at hp
  split at hp
  · rcases List.mem_map.1 hp with ⟨q, hq, rfl⟩
    split
    · simpa using add_nonneg (h q hq) hx
    · exact h q hq
  · rcases List.mem_append.1 hp with h' | h'
    · exact h p h'
    · simp only [List.mem_singleton] at h'
      simpa [h'] using hx

theorem presenceGet_of_not_hasKey {l : List (Str × List Str)} {k : Str}
    (h : hasKey l k = false) : presenceGet l k = [] := by
  unfold presenceGet
  rw [lookup_eq_none_of_not_hasKey h]
  rfl


/-- Fold induction: a predicate preserved by every step holds of the fold. -/
theorem foldl_induction {α β : Type} (P : β → Prop) (f : β → α → β) :
    ∀ (l : List α) (b : β), P b → (∀ b a, a ∈ l → P b → P (f b a)) → P (l.foldl f b)
  | [], _, hb, _ => hb
  | a :: l, b, hb, hstep =>
    foldl_induction P f l (f b a) (hstep b a (List.mem_cons_self a l) hb)
      (fun b' a' ha' hb' => hstep b' a' (List.mem_cons_of_mem _ ha') hb')

/-- Values accumulated by the plain scoring loop are nonnegative. -/
theorem accumScoresPlain_nonneg {st : IndexState} {log : ℚ → ℚ}
    {queryTokens origTokens : List Str}
    (hw : ∀ pr ∈ st.inverted_index, ∀ q ∈ pr.2, 0 ≤ q.2)
    (hl : ∀ p ∈ st.document_lengths, 0 ≤ p.2)
    (ha : 0 ≤ st.average_doc_length) :
    ∀ p ∈ accumScoresPlain st log queryTokens origTokens, 0 ≤ p.2 := by
  unfold accumScoresPlain
  refine foldl_induction (fun sc : List (Str × ℚ) => ∀ p ∈ sc, 0 ≤ p.2) _ _ _ ?_ ?_
  · intro p hp; cases hp
  · intro scores qt hqt hsc
    cases hfind : lookup st.inverted_index qt with
    | none => simpa [hfind] using hsc
    | some postings =>
      simp only [hfind]
      rcases mem_of_lookup_eq_some hfind with ⟨pr, hpr, _, hv⟩
      refine foldl_induction (fun sc : List (Str × ℚ) => ∀ p ∈ sc, 0 ≤ p.2) _ _ _ hsc ?_
      · intro sc p hp hscin
        cases hdl : lookup st.document_lengths p.1 with
        | none => simpa [hdl] using hscin
        | some dl =>
          simp only [hdl]
          apply addTo_nonneg hscin
          have h1 : 0 ≤ p.2 := hw pr hpr p (hv ▸ hp)
          have h2 : 0 ≤ dl := by
            rcases mem_of_lookup_eq_some hdl with ⟨q, hq, _, hv2⟩
            exact hv2 ▸ hl q hq
          have h3 : (0:ℚ) ≤ if qt ∈ origTokens then 9/5 else 1 := by positivity
          exact mul_nonneg (mul_nonneg (idfQ_nonneg _ _ _)
            (tfComponent_nonneg h1 h2 ha)) h3

/-- Values accumulated by the optimized scoring loop are nonnegative. -/
theorem accumScoresOpt_nonneg {st : IndexState} {log : ℚ → ℚ}
    {queryTokens origTokens mainTerms : List Str}
    (hw : ∀ pr ∈ st.inverted_index, ∀ q ∈ pr.2, 0 ≤ q.2)
    (hl : ∀ p ∈ st.document_lengths, 0 ≤ p.2)
    (ha : 0 ≤ st.average_doc_length) :
    ∀ p ∈ (accumScoresOpt st log queryTokens origTokens mainTerms).1, 0 ≤ p.2 := by
  unfold accumScoresOpt
  refine foldl_induction (fun ac : List (Str × ℚ) × List (Str × List Str) => ∀ p ∈ ac.1, 0 ≤ p.2) _ _ _ ?_ ?_
  · intro p hp; cases hp
  · intro ac qt hqt hac
    cases hfind : lookup st.inverted_index qt with
    | none => simpa [hfind] using hac
    | some postings =>
      simp only [hfind]
      rcases mem_of_lookup_eq_some hfind with ⟨pr, hpr, _, hv⟩
      refine foldl_induction (fun ac : List (Str × ℚ) × List (Str × List Str) => ∀ p ∈ ac.1, 0 ≤ p.2) _ _ _ hac ?_
      · intro ac2 p hp hac2
        cases hdl : lookup st.document_lengths p.1 with
        | none => simpa [hdl] using hac2
        | some dl =>
          simp only [hdl]
          apply addTo_nonneg hac2
          have h1 : 0 ≤ p.2 := hw pr hpr p (hv ▸ hp)
          have h2 : 0 ≤ dl := by
            rcases mem_of_lookup_eq_some hdl with ⟨q, hq, _, hv2⟩
            exact hv2 ▸ hl q hq
          have h3 : (0:ℚ) ≤
              (if qt ∈ origTokens then (if qt ∈ mainTerms then (5:ℚ)/2 else 1) * (9/5)
               else (if qt ∈ mainTerms then (5:ℚ)/2 else 1)) := by
            split <;> split <;> norm_num
          exact mul_nonneg (mul_nonneg (idfQ_nonneg _ _ _)
            (tfComponent_nonneg h1 h2 ha)) h3

/-! Bounds on the proximity score and positivity of the boost factors. -/

theorem termProximity_nonneg (text : Str) (terms : List Str) :
    0 ≤ termProximity text terms := by
  unfold termProximity
  split
  · exact le_refl 0
  · split
    · exact le_refl 0
    · split
      · exact le_refl 0
      · rename_i t0 rest
        split
        · exact le_refl 0
        · rename_i md hmd
          rcases Nat.eq_zero_or_pos (min 100 (text.length / 2)) with h0 | hpos
          · simp [h0]
          · have hcast : (0:ℚ) < ((min 100 (text.length / 2) : Nat) : ℚ) := by
              exact_mod_cast hpos
            have hle : ((min md (min 100 (text.length / 2)) : Nat) : ℚ)
                ≤ ((min 100 (text.length / 2) : Nat) : ℚ) := by
              exact_mod_cast Nat.min_le_right md _
            have h1 := (div_le_one hcast).2 hle
            linarith

theorem termProximity_le_one (text : Str) (terms : List Str) :
    termProximity text terms ≤ 1 := by
  unfold termProximity
  split
  · exact zero_le_one
  · split
    · exact zero_le_one
    · split
      · exact zero_le_one
      · rename_i t0 rest
        split
        · exact zero_le_one
        · rename_i md hmd
          have hnn : (0:ℚ) ≤ ((min md (min 100 (text.length / 2)) : Nat) : ℚ) := by
            exact_mod_cast Nat.zero_le _
          have hdd : (0:ℚ) ≤ ((min 100 (text.length / 2) : Nat) : ℚ) := by
            exact_mod_cast Nat.zero_le _
          have := div_nonneg hnn hdd
          linarith

theorem phraseBoostOpt_pos (origQuery title desc content : Str) :
    0 < phraseBoostOpt origQuery title desc content := by
  unfold phraseBoostOpt
  split
  · norm_num
  · split
    · norm_num
    · split <;> norm_num

theorem phraseBoostPlain_pos (origQuery title desc content : Str) :
    0 < phraseBoostPlain origQuery title desc content := by
  unfold phraseBoostPlain
  split
  · norm_num
  · split
    · norm_num
    · split <;> norm_num

theorem pct_nonneg (a b : Nat) : (0:ℚ) ≤ (a : ℚ) / (b : ℚ) :=
  div_nonneg (by exact_mod_cast Nat.zero_le a) (by exact_mod_cast Nat.zero_le b)

theorem one_add_pct_pos {c : ℚ} (a b : Nat) (hc : 0 ≤ c) :
    (0:ℚ) < 1 + (a : ℚ) / (b : ℚ) * c := by
  have := mul_nonneg (pct_nonneg a b) hc
  linarith

theorem docBoostOpt_pos (origQuery : Str) (mainTerms origTokens : List Str)
    (presenceCount : Nat) (info : DocInfo) :
    0 < docBoostOpt origQuery mainTerms origTokens presenceCount info := by
  unfold docBoostOpt
  refine mul_pos (mul_pos (mul_pos (mul_pos (mul_pos (mul_pos
    (phraseBoostOpt_pos _ _ _ _) ?_) ?_) ?_) ?_) ?_) ?_
  · split
    · exact one_add_pct_pos _ _ (by norm_num)
    · norm_num
  · split
    · exact one_add_pct_pos _ _ (by norm_num)
    · norm_num
  · split
    · exact one_add_pct_pos _ _ (by norm_num)
    · norm_num
  · split
    · exact one_add_pct_pos _ _ (by norm_num)
    · norm_num
  · split
    · rename_i h
      have := h.2.2
      linarith
    · norm_num
  · split
    · norm_num
    · split
      · norm_num
      · split
        · norm_num
        · split <;> norm_num

theorem docBoostPlain_pos (origQuery : Str) (origTokens : List Str) (info : DocInfo) :
    0 < docBoostPlain origQuery origTokens info := by
  unfold docBoostPlain
  refine mul_pos (mul_pos (mul_pos (phraseBoostPlain_pos _ _ _ _) ?_) ?_) ?_
  · split
    · exact one_add_pct_pos _ _ (by norm_num)
    · norm_num
  · split
    · exact one_add_pct_pos _ _ (by norm_num)
    · norm_num
  · split <;> norm_num

/-- Every score produced by the plain scoring function is nonnegative. -/
theorem calcBM25Plain_nonneg {st : IndexState} {log : ℚ → ℚ}
    {queryTokens origTokens : List Str} {origQuery : Str}
    (hw : ∀ pr ∈ st.inverted_index, ∀ q ∈ pr.2, 0 ≤ q.2)
    (hl : ∀ p ∈ st.document_lengths, 0 ≤ p.2)
    (ha : 0 ≤ st.average_doc_length) :
    ∀ p ∈ calcBM25Plain st log queryTokens origTokens origQuery, 0 ≤ p.2 := by
  intro p hp
  unfold calcBM25Plain at hp
  rcases List.mem_map.1 hp with ⟨q, hq, rfl⟩
  have hq0 := accumScoresPlain_nonneg hw hl ha q hq
  cases hinfo : lookup st.document_map q.1 with
  | none => simpa [hinfo] using hq0
  | some info =>
    simp only [hinfo]
    exact mul_nonneg hq0 (le_of_lt (docBoostPlain_pos _ _ _))

/-- Every score produced by the optimized scoring function is nonnegative. -/
theorem calcBM25Opt_nonneg {st : IndexState} {log : ℚ → ℚ}
    {queryTokens origTokens mainTerms : List Str} {origQuery : Str}
    (hw : ∀ pr ∈ st.inverted_index, ∀ q ∈ pr.2, 0 ≤ q.2)
    (hl : ∀ p ∈ st.document_lengths, 0 ≤ p.2)
    (ha : 0 ≤ st.average_doc_length) :
    ∀ p ∈ calcBM25Opt st log queryTokens origTokens mainTerms origQuery, 0 ≤ p.2 := by
  intro p hp
  unfold calcBM25Opt at hp
  rcases List.mem_map.1 hp with ⟨q, hq, rfl⟩
  have hq0 := accumScoresOpt_nonneg hw hl ha q hq
  cases hinfo : lookup st.document_map q.1 with
  | none => simpa [hinfo] using hq0
  | some info =>
    simp only [hinfo]
    exact mul_nonneg hq0 (le_of_lt (docBoostOpt_pos _ _ _ _ _))

/-! What the result-formatting loops guarantee about every row they emit. -/

theorem formatPlain_spec {st : IndexState} {origTokens : List Str}
    {l : List (Str × ℚ)} {acc : List PlainResult} {r : PlainResult}
    (hr : r ∈ formatPlain st origTokens l acc) :
    r ∈ acc ∨ ∃ d s info, (d, s) ∈ l ∧ lookup st.document_map d = some info ∧
      1/20 < s ∧ r.url = info.url ∧ r.score = s := by
  induction l generalizing acc with
  | nil => exact Or.inl hr
  | cons p rest ih =>
    obtain ⟨d, s⟩ := p
    simp only [formatPlain] at hr
    cases hinfo : lookup st.document_map d with
    | none =>
      simp only [hinfo] at hr
      exact (ih hr).imp_right (fun ⟨d', s', info, hm, h⟩ =>
        ⟨d', s', info, List.mem_cons_of_mem _ hm, h⟩)
    | some info =>
      simp only [hinfo] at hr
      split at hr
      · rename_i hs
        rcases ih hr with hacc | ⟨d', s', info', hm, h⟩
        · rcases List.mem_append.1 hacc with h' | h'
          · exact Or.inl h'
          · simp only [List.mem_singleton] at h'
            subst h'
            exact Or.inr ⟨d, s, info, List.mem_cons_self _ _, hinfo, hs, rfl, rfl⟩
        · exact Or.inr ⟨d', s', info', List.mem_cons_of_mem _ hm, h⟩
      · exact (ih hr).imp_right (fun ⟨d', s', info, hm, h⟩ =>
          ⟨d', s', info, List.mem_cons_of_mem _ hm, h⟩)

theorem formatOpt_spec {st : IndexState} {mainTerms : List Str}
    {presence : List (Str × List Str)} {minRequired topK : Nat}
    {l : List (Str × ℚ)} {acc : List OptResult} {r : OptResult}
    (hr : r ∈ formatOpt st mainTerms presence minRequired topK l acc) :
    r ∈ acc ∨ ∃ d s info, (d, s) ∈ l ∧ lookup st.document_map d = some info ∧
      2/25 < s ∧
      excludedDomains.any (fun dom => isSubstr dom (lowerStr info.url)) = false ∧
      (mainTerms ≠ [] →
        hasKey presence d = false ∨ minRequired ≤ (presenceGet presence d).length) ∧
      r.url = info.url ∧ r.score = s ∧
      r.main_terms_matched =
        (if mainTerms ≠ [] then (presenceGet presence d).length else 0) := by
  induction l generalizing acc with
  | nil => exact Or.inl hr
  | cons p rest ih =>
    obtain ⟨d, s⟩ := p
    simp only [formatOpt] at hr
    cases hinfo : lookup st.document_map d with
    | none =>
      simp only [hinfo] at hr
      exact (ih hr).imp_right (fun ⟨d', s', info, hm, h⟩ =>
        ⟨d', s', info, List.mem_cons_of_mem _ hm, h⟩)
    | some info =>
      simp only [hinfo] at hr
      split at hr
      · rename_i hs
        split at hr
        · exact (ih hr).imp_right (fun ⟨d', s', info', hm, h⟩ =>
            ⟨d', s', info', List.mem_cons_of_mem _ hm, h⟩)
        · rename_i hexcl
          split at hr
          · exact (ih hr).imp_right (fun ⟨d', s', info', hm, h⟩ =>
              ⟨d', s', info', List.mem_cons_of_mem _ hm, h⟩)
          · rename_i hmain
            have hexcl' : excludedDomains.any
                (fun dom => isSubstr dom (lowerStr info.url)) = false :=
              Bool.eq_false_iff.2 hexcl
            have hmain' : mainTerms ≠ [] →
                hasKey presence d = false ∨
                  minRequired ≤ (presenceGet presence d).length := by
              intro hmt
              by_cases hk : hasKey presence d
              · right
                by_contra hlt
                exact hmain ⟨hmt, hk, Nat.lt_of_not_le hlt⟩
              · exact Or.inl (Bool.eq_false_iff.2 hk)
            have key : ∀ acc2 : List OptResult,
                r ∈ (if acc2.length ≥ topK then acc2
                     else formatOpt st mainTerms presence minRequired topK rest acc2) →
                r ∈ acc2 ∨ ∃ d' s' info', (d', s') ∈ rest ∧
                  lookup st.document_map d' = some info' ∧ 2/25 < s' ∧
                  excludedDomains.any (fun dom => isSubstr dom (lowerStr info'.url)) = false ∧
                  (mainTerms ≠ [] →
                    hasKey presence d' = false ∨
                      minRequired ≤ (presenceGet presence d').length) ∧
                  r.url = info'.url ∧ r.score = s' ∧
                  r.main_terms_matched =
                    (if mainTerms ≠ [] then (presenceGet presence d').length else 0) := by
              intro acc2 h2
              split at h2
              · exact Or.inl h2
              · exact ih h2
            rcases key _ hr with hacc | ⟨d', s', info', hm, h⟩
            · rcases List.mem_append.1 hacc with h' | h'
              · exact Or.inl h'
              · have h'' := List.mem_singleton.1 h'
                subst h''
                exact Or.inr ⟨d, s, info, List.mem_cons_self _ _, hinfo, hs, hexcl', hmain',
                  rfl, rfl, rfl⟩
            · exact Or.inr ⟨d', s', info', List.mem_cons_of_mem _ hm, h⟩
      · exact (ih hr).imp_right (fun ⟨d', s', info', hm, h⟩ =>
          ⟨d', s', info', List.mem_cons_of_mem _ hm, h⟩)

/-! Claim C1: score normalisation and the unit interval. -/

/-- C1 (amended): in the plain engine, in the optimized engine in BM25-only
mode, and in the hybrid path whose vector layer returns similarities in
`[0, 1]`, every result of `search` carries a score in `[0, 1]`: before
sorting, the accumulated BM25 scores are divided by their maximum (a no-op
when the maximum is not positive).  The amendment excludes the path where the
vector layer raises at query time: there the engine falls back to the raw,
unnormalised BM25 scores (see the counterexample), so the original claim as
stated is false.  Hypotheses: the index stores nonnegative posting weights
and document lengths and a nonnegative average length, as every built index
does. -/
theorem c1_scores_normalized_in_unit_interval
    (st : IndexState) (log : ℚ → ℚ) (query : Str) (topK : Nat)
    (bertList : List (Str × ℚ))
    (hw : ∀ pr ∈ st.inverted_index, ∀ q ∈ pr.2, 0 ≤ q.2)
    (hl : ∀ p ∈ st.document_lengths, 0 ≤ p.2)
    (ha : 0 ≤ st.average_doc_length)
    (hb : ∀ p ∈ bertList, 0 ≤ p.2 ∧ p.2 ≤ 1) :
    (∀ r ∈ searchPlain st log query topK, 0 ≤ r.score ∧ r.score ≤ 1)
    ∧ (st.use_hybrid_search = false →
        ∀ (b : Except Unit (List (Str × ℚ))) (r : OptResult),
          r ∈ searchOpt st log query topK b → 0 ≤ r.score ∧ r.score ≤ 1)
    ∧ (∀ r ∈ searchOpt st log query topK (Except.ok bertList),
        0 ≤ r.score ∧ r.score ≤ 1) := by
  have hplainScores : ∀ origQuery origTokens filtered,
      ∀ p ∈ normalizeScores (calcBM25Plain st log filtered origTokens origQuery),
        0 ≤ p.2 ∧ p.2 ≤ 1 :=
    fun origQuery origTokens filtered =>
      normalizeScores_bounds (calcBM25Plain_nonneg hw hl ha)
  have hoptScores : ∀ origQuery origTokens mainTerms filtered,
      ∀ p ∈ normalizeScores (calcBM25Opt st log filtered origTokens mainTerms origQuery),
        0 ≤ p.2 ∧ p.2 ≤ 1 :=
    fun origQuery origTokens mainTerms filtered =>
      normalizeScores_bounds (calcBM25Opt_nonneg hw hl ha)
  refine ⟨?_, ?_, ?_⟩
  · intro r hr
    simp only [searchPlain] at hr
    split at hr
    · exact absurd hr (List.not_mem_nil _)
    split at hr
    · exact absurd hr (List.not_mem_nil _)
    rcases formatPlain_spec hr with h0 | ⟨d, s, info, hm, _, _, _, hscore⟩
    · exact absurd h0 (List.not_mem_nil _)
    have hmem := mem_sortDesc.1 (List.Sublist.mem hm (List.take_sublist _ _))
    rw [hscore]
    exact hplainScores _ _ _ _ hmem
  · intro hflag b r hr
    simp only [searchOpt] at hr
    split at hr
    · exact absurd hr (List.not_mem_nil _)
    split at hr
    · exact absurd hr (List.not_mem_nil _)
    rcases formatOpt_spec hr with h0 | ⟨d, s, info, hm, _, _, _, _, _, hscore, _⟩
    · exact absurd h0 (List.not_mem_nil _)
    have hmem := mem_sortDesc.1 (List.Sublist.mem hm (List.take_sublist _ _))
    rw [hflag] at hmem
    simp only [Bool.false_eq_true, if_false] at hmem
    rw [hscore]
    exact hoptScores _ _ _ _ _ hmem
  · intro r hr
    simp only [searchOpt] at hr
    split at hr
    · exact absurd hr (List.not_mem_nil _)
    split at hr
    · exact absurd hr (List.not_mem_nil _)
    rcases formatOpt_spec hr with h0 | ⟨d, s, info, hm, _, _, _, _, _, hscore, _⟩
    · exact absurd h0 (List.not_mem_nil _)
    have hmem := mem_sortDesc.1 (List.Sublist.mem hm (List.take_sublist _ _))
    rw [hscore]
    split at hmem
    · rcases List.mem_map.1 hmem with ⟨dId, _, heq⟩
      have ha' := getQ_bounds (hoptScores (trimStr (lowerStr query)) (tokenize query)
        (identifyMainTerms st.stopwords query) (queryFiltered st query)) dId
      have hb' := getQ_bounds hb dId
      have h2 : s = (1 - bertWeight) * getQ (normalizeScores
          (calcBM25Opt st log (queryFiltered st query) (tokenize query)
            (identifyMainTerms st.stopwords query) (trimStr (lowerStr query)))) dId
          + bertWeight * getQ bertList dId := by
        have := congrArg Prod.snd heq
        simpa using this.symm
      rw [h2]
      unfold bertWeight
      constructor
      · nlinarith [ha'.1, hb'.1]
      · nlinarith [ha'.2, hb'.2]
    · exact hoptScores _ _ _ _ _ hmem

/-- C1 counterexample: with hybrid search enabled and the vector layer raising
at query time, the engine returns the raw, unnormalised BM25 score — here
83160/31 ≈ 2682, far outside `[0, 1]`.  (With the real natural logarithm in
place of `logModel` the returned score is ≈ 925, likewise outside `[0, 1]`.)
The claim as stated is therefore false on the hybrid path. -/
theorem c1_hybrid_failure_counterexample :
    (searchOpt hybridState logModel (pyStr "alpha") 5 (Except.error ())).map OptResult.score
      = [83160/31]
    ∧ ¬ ((83160 : ℚ)/31 ≤ 1) := by
  constructor
  · decide
  · decide

/-- C1 witness: the amended theorem applied to a concrete index and query on
which the plain engine returns a (normalised) score of 1. -/
theorem c1_scores_witness : 0 ≤ zebraResult.score ∧ zebraResult.score ≤ 1 :=
  (c1_scores_normalized_in_unit_interval zebraState logModel (pyStr "zebra") 5 []
    (by decide) (by decide) (by decide) (by decide)).1 zebraResult (by decide)

/-! Claim C2: empty, whitespace-only and stopword-only queries. -/

/-- C2: a query that is empty or whitespace-only (its strip is empty), or
whose expanded tokens are all removed by the stopword and token-length
filters, yields the empty result list in both engines. -/
theorem c2_empty_query_returns_nothing
    (st : IndexState) (log : ℚ → ℚ) (query : Str) (topK : Nat)
    (b : Except Unit (List (Str × ℚ)))
    (h : trimStr query = [] ∨ queryFiltered st query = []) :
    searchPlain st log query topK = [] ∧ searchOpt st log query topK b = [] := by
  rcases h with h | h
  · constructor
    · simp [searchPlain, h]
    · simp [searchOpt, h]
  · by_cases ht : trimStr query = []
    · constructor
      · simp [searchPlain, ht]
      · simp [searchOpt, ht]
    · constructor
      · simp [searchPlain, ht, h]
      · simp [searchOpt, ht, h]

/-- C2 witness: the stopword-only query `"the a an"` (all of whose expanded
tokens are stopwords of the default set) returns no results from either
engine on a concrete index. -/
theorem c2_empty_query_witness :
    searchPlain exState logModel (pyStr "the a an") 7 = []
    ∧ searchOpt exState logModel (pyStr "the a an") 7 (Except.error ()) = [] :=
  c2_empty_query_returns_nothing exState logModel (pyStr "the a an") 7
    (Except.error ()) (Or.inr (by decide))

/-! Claim C3: the relevance threshold and the main-term filter. -/

/-- C3 (amended): in the result-formatting step, every returned document has
a normalised score strictly above the minimum relevance threshold (0.05 for
the plain engine, 0.08 for the optimized/hybrid engine); and, whenever the
query has main terms, every returned document either contains none of them
(`main_terms_matched = 0`) or contains at least `max(1, len(mainTerms)//2)`
of them.  The amendment is forced by the counterexample: the code applies the
main-term filter only to documents recorded in the presence map, so a
document that contains no main term at all bypasses the filter, contradicting
the claim's "drops every document that contains fewer than
`max(1, len(mainTerms)//2)`". -/
theorem c3_threshold_and_main_term_filter
    (st : IndexState) (log : ℚ → ℚ) (query : Str) (topK : Nat)
    (b : Except Unit (List (Str × ℚ))) :
    (∀ r ∈ searchOpt st log query topK b, 2/25 < r.score ∧
      (identifyMainTerms st.stopwords query ≠ [] →
        r.main_terms_matched = 0 ∨
          max 1 ((identifyMainTerms st.stopwords query).length / 2) ≤ r.main_terms_matched))
    ∧ (∀ r ∈ searchPlain st log query topK, 1/20 < r.score) := by
  constructor
  · intro r hr
    simp only [searchOpt] at hr
    split at hr
    · exact absurd hr (List.not_mem_nil _)
    split at hr
    · exact absurd hr (List.not_mem_nil _)
    rcases formatOpt_spec hr with h0 | ⟨d, s, info, _, _, hthr, _, hmain, _, hscore, hmatched⟩
    · exact absurd h0 (List.not_mem_nil _)
    constructor
    · rw [hscore]; exact hthr
    · intro hmt
      rcases hmain hmt with hk | hge
      · left
        rw [hmatched, if_pos hmt, presenceGet_of_not_hasKey hk]
        rfl
      · right
        rw [hmatched, if_pos hmt]
        exact hge
  · intro r hr
    simp only [searchPlain] at hr
    split at hr
    · exact absurd hr (List.not_mem_nil _)
    split at hr
    · exact absurd hr (List.not_mem_nil _)
    rcases formatPlain_spec hr with h0 | ⟨d, s, info, _, _, hthr, _, hscore⟩
    · exact absurd h0 (List.not_mem_nil _)
    rw [hscore]; exact hthr

/-- C3 counterexample: on the query `alpha zz beta` the main terms are
`[alpha, beta]`, so the claim requires every returned document to contain at
least `max(1, 2//2) = 1` of them; yet the optimized engine returns `docx`,
which contains neither (it was scored through the non-main expanded token
`zz`), with `main_terms_matched = 0`.  The claim as stated is false. -/
theorem c3_zero_main_terms_counterexample :
    searchOpt exState logModel (pyStr "alpha zz beta") 5 (Except.error ()) = [docxResult]
    ∧ identifyMainTerms exState.stopwords (pyStr "alpha zz beta")
        = [pyStr "alpha", pyStr "beta"]
    ∧ docxResult.main_terms_matched = 0
    ∧ max 1 ((identifyMainTerms exState.stopwords (pyStr "alpha zz beta")).length / 2) = 1
    ∧ mainTermDocumentPresence exState
        (identifyMainTerms exState.stopwords (pyStr "alpha zz beta")) = [] := by
  refine ⟨by decide, by decide, by decide, by decide, by decide⟩

/-- C3 witness: the amended theorem applied to the concrete search that
returns `docxResult`. -/
theorem c3_threshold_witness :
    2/25 < docxResult.score ∧
      (identifyMainTerms exState.stopwords (pyStr "alpha zz beta") ≠ [] →
        docxResult.main_terms_matched = 0 ∨
          max 1 ((identifyMainTerms exState.stopwords (pyStr "alpha zz beta")).length / 2)
            ≤ docxResult.main_terms_matched) :=
  (c3_threshold_and_main_term_filter exState logModel (pyStr "alpha zz beta") 5
    (Except.error ())).1 docxResult (by decide)

/-! Claim C4: the exact-phrase multipliers. -/

theorem lookup_map_keyfix {f : Str × ℚ → Str × ℚ} (hf : ∀ p, (f p).1 = p.1)
    {l : List (Str × ℚ)} {k : Str} {p0 : Str × ℚ}
    (hfind : l.find? (fun p => p.1 == k) = some p0) :
    lookup (l.map f) k = some (f p0).2 := by
  induction l with
  | nil => cases hfind
  | cons p t ih =>
    rw [List.find?_cons] at hfind
    unfold lookup
    rw [List.map_cons, List.find?_cons]
    by_cases hk : p.1 == k
    · simp only [hk, if_pos] at hfind ⊢
      have : (f p).1 == k := by rw [hf p]; exact hk
      simp only [this, if_pos]
      simp only [Option.map_some']
      cases hfind
      rfl
    · simp only [hk, if_neg] at hfind ⊢
      have : ((f p).1 == k) = false := by
        rw [hf p]; exact Bool.eq_false_iff.2 hk
      simp only [this]
      exact ih hfind

/-- C4 (amended): exact-phrase containment of the full lowercased query is
rewarded by the first matching field only, checked title, then description,
then content; the multipliers are ×2.0 / ×1.7 / ×1.4 in the OPTIMIZED engine
but ×1.8 / ×1.5 / ×1.3 in the PLAIN engine — the claim's "exactly 2.0/1.7/1.4"
holds only for the optimized engine (see the counterexample for the plain
engine).  The last conjunct places the multiplier in the engine: the score of
a scored, mapped document is its accumulated BM25 score times the boost
factor, whose leading factor is the phrase multiplier. -/
theorem c4_exact_phrase_multipliers :
    (∀ q t d c : Str,
      (isSubstr q t = true →
        phraseBoostOpt q t d c = 2 ∧ phraseBoostPlain q t d c = 9/5)
      ∧ (isSubstr q t = false → isSubstr q d = true →
        phraseBoostOpt q t d c = 17/10 ∧ phraseBoostPlain q t d c = 3/2)
      ∧ (isSubstr q t = false → isSubstr q d = false → isSubstr q c = true →
        phraseBoostOpt q t d c = 7/5 ∧ phraseBoostPlain q t d c = 13/10)
      ∧ (isSubstr q t = false → isSubstr q d = false → isSubstr q c = false →
        phraseBoostOpt q t d c = 1 ∧ phraseBoostPlain q t d c = 1))
    ∧ (∀ (st : IndexState) (log : ℚ → ℚ) (qts ots mts : List Str) (oq d : Str)
        (v : ℚ) (info : DocInfo),
        lookup st.document_map d = some info →
        lookup (accumScoresOpt st log qts ots mts).1 d = some v →
        lookup (calcBM25Opt st log qts ots mts oq) d =
          some (v * docBoostOpt oq mts ots
            (presenceGet (accumScoresOpt st log qts ots mts).2 d).length info)) := by
  constructor
  · intro q t d c
    refine ⟨?_, ?_, ?_, ?_⟩
    · intro h1
      constructor <;> simp [phraseBoostOpt, phraseBoostPlain, h1]
    · intro h1 h2
      constructor <;> simp [phraseBoostOpt, phraseBoostPlain, h1, h2]
    · intro h1 h2 h3
      constructor <;> simp [phraseBoostOpt, phraseBoostPlain, h1, h2, h3]
    · intro h1 h2 h3
      constructor <;> simp [phraseBoostOpt, phraseBoostPlain, h1, h2, h3]
  · intro st log qts ots mts oq d v info hinfo hacc
    unfold lookup at hacc
    rcases Option.map_eq_some'.1 hacc with ⟨p0, hfind, hp0⟩
    have hkey : p0.1 = d := by
      have := List.find?_some hfind
      simpa using this
    unfold calcBM25Opt
    rw [lookup_map_keyfix ?hf hfind]
    case hf =>
      intro p
      cases lookup st.document_map p.1 <;> rfl
    simp only [hkey, hinfo, hp0]

/-- C4 counterexample: in the plain engine the query `zebra` occurs in the
title `zebra zoo`, and the document's score is multiplied by 1.8 (times the
independent title-token factor 3), not by "exactly 2.0": the boosted score is
48/5 · (9/5 · 3) = 1296/25, whereas the claim's multiplier would give
48/5 · (2 · 3) = 288/5. -/
theorem c4_plain_multiplier_counterexample :
    isSubstr (pyStr "zebra") (lowerStr doczInfo.title) = true
    ∧ getQ (accumScoresPlain zebraState logModel [pyStr "zebra"] [pyStr "zebra"])
        (pyStr "docz") = 48/5
    ∧ getQ (calcBM25Plain zebraState logModel [pyStr "zebra"] [pyStr "zebra"]
        (pyStr "zebra")) (pyStr "docz") = (9/5) * 3 * (48/5)
    ∧ ((9:ℚ)/5) * 3 * (48/5) ≠ 2 * 3 * (48/5) := by
  refine ⟨by decide, by decide, by decide, by decide⟩

/-- C4 witness: the multiplier characterisation applied at a concrete phrase
hit, and the engine-integration conjunct applied to a concrete index. -/
theorem c4_multipliers_witness :
    (phraseBoostOpt (pyStr "ab") (pyStr "xaby") [] [] = 2
      ∧ phraseBoostPlain (pyStr "ab") (pyStr "xaby") [] [] = 9/5)
    ∧ lookup (calcBM25Opt hybridState logModel [pyStr "alpha"] [pyStr "alpha"]
        [pyStr "alpha"] (pyStr "alpha")) (pyStr "doca") =
      some (1320/31 * docBoostOpt (pyStr "alpha") [pyStr "alpha"] [pyStr "alpha"] 1
        docaInfo) :=
  ⟨(c4_exact_phrase_multipliers.1 (pyStr "ab") (pyStr "xaby") [] []).1 (by decide),
   by
    have h := c4_exact_phrase_multipliers.2 hybridState logModel [pyStr "alpha"]
      [pyStr "alpha"] [pyStr "alpha"] (pyStr "alpha") (pyStr "doca") (1320/31) docaInfo
      (by decide) (by decide)
    rw [h]
    have : (presenceGet (accumScoresOpt hybridState logModel [pyStr "alpha"]
        [pyStr "alpha"] [pyStr "alpha"]).2 (pyStr "doca")).length = 1 := by decide
    rw [this]⟩

/-! Claim C5: build-time field boosting. -/

theorem getQ_map_addkey {k : Str} {x : ℚ} (l : List (Str × ℚ)) (k' : Str) :
    getQ (l.map (fun p => if p.1 == k then (p.1, p.2 + x) else p)) k'
      = getQ l k' + if k' = k ∧ hasKey l k' = true then x else 0 := by
  induction l with
  | nil => simp [getQ, lookup, hasKey]
  | cons p t ih =>
    by_cases hp : p.1 = k'
    · have hbeq : (p.1 == k') = true := beq_iff_eq.2 hp
      by_cases hpk : p.1 = k
      · have hkk : k' = k := hp ▸ hpk
        simp [getQ, lookup, hasKey, List.find?_cons, hp, hpk, hkk]
      · have hkk : ¬ k' = k := fun h => hpk (h ▸ hp)
        simp [getQ, lookup, hasKey, List.find?_cons, hp, hpk, hkk]
    · have hbeq : (p.1 == k') = false := beq_eq_false_iff_ne.2 hp
      have hfp : ((if p.1 == k then (p.1, p.2 + x) else p).1 == k') = false := by
        split <;> exact hbeq
      unfold getQ lookup hasKey at ih ⊢
      rw [List.map_cons, List.find?_cons, hfp, List.find?_cons, hbeq]
      rw [List.any_cons]
      simp only [hbeq, Bool.false_or]
      exact ih

theorem getQ_append_single (l : List (Str × ℚ)) (k k' : Str) (x : ℚ) :
    getQ (l ++ [(k, x)]) k'
      = if hasKey l k' = true then getQ l k' else if k' = k then x else 0 := by
  induction l with
  | nil =>
    by_cases h : k' = k
    · simp [getQ, lookup, hasKey, List.find?_cons, h]
    · have : (k == k') = false := beq_eq_false_iff_ne.2 (fun e => h e.symm)
      simp [getQ, lookup, hasKey, List.find?_cons, this, h]
  | cons p t ih =>
    by_cases hp : p.1 = k'
    · have hbeq : (p.1 == k') = true := beq_iff_eq.2 hp
      simp [getQ, lookup, hasKey, List.find?_cons, hbeq]
    · have hbeq : (p.1 == k') = false := beq_eq_false_iff_ne.2 hp
      unfold getQ lookup hasKey at ih ⊢
      rw [List.cons_append, List.find?_cons, hbeq, List.find?_cons, hbeq, List.any_cons]
      simp only [hbeq, Bool.false_or]
      exact ih

theorem getQ_addTo (l : List (Str × ℚ)) (k : Str) (x : ℚ) (k' : Str) :
    getQ (addTo l k x) k' = getQ l k' + if k' = k then x else 0 := by
  unfold addTo
  by_cases hk : hasKey l k
  · rw [if_pos hk, getQ_map_addkey]
    by_cases hkk : k' = k
    · subst hkk
      simp [hk]
    · simp [hkk]
  · rw [if_neg hk, getQ_append_single]
    by_cases hkk : k' = k
    · subst hkk
      have hfalse : hasKey l k' = false := Bool.eq_false_iff.2 hk
      rw [if_neg (by simp [hfalse]), if_pos rfl]
      have : getQ l k' = 0 := by
        unfold getQ
        rw [lookup_eq_none_of_not_hasKey hfalse]
        rfl
      rw [this]
      ring
    · by_cases hhk : hasKey l k'
      · rw [if_pos (by simp [hhk])]
        simp [hkk]
      · have hfalse : hasKey l k' = false := Bool.eq_false_iff.2 hhk
        rw [if_neg (by simp [hfalse]), if_neg hkk]
        have : getQ l k' = 0 := by
          unfold getQ
          rw [lookup_eq_none_of_not_hasKey hfalse]
          rfl
        rw [this]
        ring

theorem foldl_addTo_count (w : ℚ) (ts : List Str) (acc : List (Str × ℚ)) (t : Str) :
    getQ (ts.foldl (fun a tok => addTo a tok w) acc) t
      = getQ acc t + w * (ts.count t : ℚ) := by
  induction ts generalizing acc with
  | nil => simp
  | cons tok ts ih =>
    rw [List.foldl_cons, ih, getQ_addTo, List.count_cons]
    by_cases h : t = tok
    · simp only [h, beq_self_eq_true, if_pos rfl, if_true]
      push_cast
      ring
    · have hb : (tok == t) = false := beq_eq_false_iff_ne.2 (fun e => h e.symm)
      simp only [if_neg h, hb, Bool.false_eq_true, if_false]
      push_cast
      ring

/-- C5: the engines read `title_boost` 5.0 and `meta_boost` 3.0 from
`INDEXER_CONFIG` (the constructor defaults 3.0/2.0 apply only when the keys
are absent), and `_process_document` stores, for every token, the weight
`title_boost` per title occurrence plus `meta_boost` per meta-description
occurrence plus 1.0 per content occurrence — the field boosts are baked into
the stored posting weight at build time. -/
theorem c5_build_time_field_boosts (st : IndexState) (doc : RawDoc) (t : Str) :
    initTitleBoost INDEXER_CONFIG = 5 ∧ initMetaBoost INDEXER_CONFIG = 3
    ∧ getQ (processDocument st doc) t =
        st.title_boost * ((filterTokens st (tokenize doc.title)).count t : ℚ)
        + st.meta_boost * ((filterTokens st (tokenize doc.meta_description)).count t : ℚ)
        + 1 * ((filterTokens st (tokenize doc.content)).count t : ℚ) := by
  refine ⟨rfl, rfl, ?_⟩
  unfold processDocument
  rw [foldl_addTo_count, foldl_addTo_count, foldl_addTo_count]
  have : getQ [] t = 0 := rfl
  rw [this]
  ring

/-! Claim C6: the term-proximity boost. -/

/-- C6 (amended): the proximity score is 0 whenever some main term is absent
from the content (a), always lies in `[0, 1]` (b), and — the part the
original claim misses — is also 0 when every occurrence of the first main
term has some other main term whose nearest occurrence is farther than
`len(content) // 4` (c): the code measures anchored distances from the first
term with a quarter-length cutoff, not the smallest window containing one
occurrence of every term.  The final conjunct (d) exhibits the closed form of
the boost factor: the proximity multiplier `1 + proximity * 0.5` fires exactly
when there are at least two main terms, the content is nonempty and the
proximity is positive, and it multiplies the score exactly once, alongside the
phrase, fraction and coverage factors. -/
theorem c6_proximity_zero_and_bounds :
    (∀ (text : Str) (terms : List Str),
      (∃ t ∈ terms, findPositions text t = []) → termProximity text terms = 0)
    ∧ (∀ (text : Str) (terms : List Str),
        0 ≤ termProximity text terms ∧ termProximity text terms ≤ 1)
    ∧ (∀ (text : Str) (t0 : Str) (rest : List Str),
        (∀ pos1 ∈ findPositions text t0, proximityInner text pos1 rest 0 = none) →
        termProximity text (t0 :: rest) = 0)
    ∧ (∀ (oq : Str) (mts ots : List Str) (pc : Nat) (info : DocInfo),
        docBoostOpt oq mts ots pc info =
          phraseBoostOpt oq (lowerStr info.title) (lowerStr info.description)
            (lowerStr info.content_snippet)
          * (if mts ≠ [] ∧ 0 < ((mts.countP (fun t => isSubstr t (lowerStr info.title)) : ℚ)
                / (mts.length : ℚ))
             then 1 + ((mts.countP (fun t => isSubstr t (lowerStr info.title)) : ℚ)
                / (mts.length : ℚ)) * (5/2) else 1)
          * (if mts ≠ [] ∧ 0 < ((mts.countP (fun t => isSubstr t (lowerStr info.description)) : ℚ)
                / (mts.length : ℚ))
             then 1 + ((mts.countP (fun t => isSubstr t (lowerStr info.description)) : ℚ)
                / (mts.length : ℚ)) * (3/2) else 1)
          * (if ots ≠ [] ∧ 0 < ((ots.countP (fun t => isSubstr t (lowerStr info.title)) : ℚ)
                / (ots.length : ℚ))
             then 1 + ((ots.countP (fun t => isSubstr t (lowerStr info.title)) : ℚ)
                / (ots.length : ℚ)) * 2 else 1)
          * (if ots ≠ [] ∧ 0 < ((ots.countP (fun t => isSubstr t (lowerStr info.description)) : ℚ)
                / (ots.length : ℚ))
             then 1 + ((ots.countP (fun t => isSubstr t (lowerStr info.description)) : ℚ)
                / (ots.length : ℚ)) * 1 else 1)
          * (if mts.length > 1 ∧ lowerStr info.content_snippet ≠ [] ∧
                0 < termProximity (lowerStr info.content_snippet) mts
             then 1 + termProximity (lowerStr info.content_snippet) mts * (1/2) else 1)
          * (if mts ≠ [] ∧ pc = mts.length then 3
             else if mts ≠ [] ∧ (mts.length : ℚ) * (3/4) ≤ (pc : ℚ) then 2
             else if mts ≠ [] ∧ (mts.length : ℚ) * (1/2) ≤ (pc : ℚ) then 3/2
             else if mts ≠ [] ∧ (pc : ℚ) < (mts.length : ℚ) * (1/2) then 7/10
             else 1)) := by
  refine ⟨?_, ?_, ?_, ?_⟩
  · intro text terms ⟨t, ht, hpos⟩
    unfold termProximity
    split
    · rfl
    · rename_i hne
      have : terms.any (fun t => findPositions text t == []) = true :=
        List.any_eq_true.2 ⟨t, ht, by simp [hpos]⟩
      rw [if_pos this]
  · intro text terms
    exact ⟨termProximity_nonneg text terms, termProximity_le_one text terms⟩
  · intro text t0 rest hall
    unfold termProximity
    split
    · rfl
    · split
      · rfl
      · have hfold : (findPositions text t0).foldl
            (fun (cur : Option Nat) pos1 =>
              match proximityInner text pos1 rest 0 with
              | none => cur
              | some m =>
                match cur with
                | none => some m
                | some c => if m < c then some m else some c) none = none := by
          refine foldl_induction (fun cur : Option Nat => cur = none) _ _ _ rfl ?_
          intro cur pos1 hpos hcur
          rw [hall pos1 hpos, hcur]
        simp only [hfold]
  · intro oq mts ots pc info
    rfl
  
/-- C6 counterexample: in a 200-character content both main terms occur
(`zebra` at 0, `quill` at 60), so the claim's formula gives proximity
`1 - min(60, 100)/100 = 2/5` and a boost of `×1.2`; but the code's
quarter-length cutoff (60 > 200 // 4 = 50) makes the proximity 0 and applies
no boost: the document's boost factor is 3 (coverage only), not 3 · 1.2. -/
theorem c6_cutoff_counterexample :
    findPositions proximityText (pyStr "zebra") = [0]
    ∧ findPositions proximityText (pyStr "quill") = [60]
    ∧ proximityText.length = 200
    ∧ termProximity proximityText [pyStr "zebra", pyStr "quill"] = 0
    ∧ (1 - ((min 60 (min 100 (200 / 2)) : Nat) : ℚ) / ((min 100 (200 / 2) : Nat) : ℚ)
        = 2/5)
    ∧ (0 : ℚ) ≠ 2/5
    ∧ docBoostOpt (pyStr "zzzz") [pyStr "zebra", pyStr "quill"] [] 2 proximityInfo = 3
    ∧ (3 : ℚ) ≠ 3 * (1 + (2/5) * (1/2)) := by
  refine ⟨by decide, by decide, by decide, by decide, by decide, by decide, by decide,
    by decide⟩

/-- C6 witness: the amended theorem applied to concrete inputs: a term absent
from a text gives proximity 0; the close-pair text `zebra quill…` has
proximity 47/50, inside `[0, 1]`; and the far-pair text of the counterexample
satisfies the cutoff hypothesis, forcing proximity 0. -/
theorem c6_proximity_witness :
    termProximity (pyStr "abc") [pyStr "zz"] = 0
    ∧ (0 ≤ termProximity proximityNearText [pyStr "zebra", pyStr "quill"]
        ∧ termProximity proximityNearText [pyStr "zebra", pyStr "quill"] ≤ 1)
    ∧ termProximity proximityText [pyStr "zebra", pyStr "quill"] = 0 :=
  ⟨c6_proximity_zero_and_bounds.1 (pyStr "abc") [pyStr "zz"]
      ⟨pyStr "zz", by decide, by decide⟩,
   c6_proximity_zero_and_bounds.2.1 proximityNearText [pyStr "zebra", pyStr "quill"],
   c6_proximity_zero_and_bounds.2.2.1 proximityText (pyStr "zebra") [pyStr "quill"]
      (by decide)⟩

/-! Claim C7: the optimizer prunes exactly the terms with fewer than two
postings. -/

theorem lookup_filter_min2 {ind : List (Str × List (Str × ℚ))} {t : Str}
    {ps : List (Str × ℚ)}
    (h : lookup (ind.filter (fun p => p.2.length ≥ 2)) t = some ps) :
    2 ≤ ps.length := by
  rcases mem_of_lookup_eq_some h with ⟨p, hp, _, hv⟩
  have := (List.mem_filter.1 hp).2
  rw [hv] at this
  simpa using this

theorem lookup_filter_keeps {ind : List (Str × List (Str × ℚ))} {t : Str}
    {ps : List (Str × ℚ)}
    (h : lookup ind t = some ps) (hlen : 2 ≤ ps.length) :
    lookup (ind.filter (fun p => p.2.length ≥ 2)) t = some ps := by
  induction ind with
  | nil => cases h
  | cons p rest ih =>
    unfold lookup at h ⊢
    rw [List.find?_cons] at h
    by_cases hk : p.1 == t
    · simp only [hk, if_pos] at h
      have hps : p.2 = ps := by
        simpa using h
      have hkeep : (p.2.length ≥ 2 : Bool) = true := by
        simp [hps, hlen]
      rw [List.filter_cons, if_pos hkeep, List.find?_cons]
      simp [hk, hps]
    · simp only [hk, if_neg] at h
      rw [List.filter_cons]
      split
      · rw [List.find?_cons]
        simp only [hk]
        exact ih h
      · exact ih h

/-- C7: after `_optimize_index`, no term with fewer than two postings appears
as a key of the inverted index, and every term with at least two postings is
retained with its posting list unchanged. -/
theorem c7_optimizer_prunes_rare_terms (st : IndexState) :
    (∀ (t : Str) (ps : List (Str × ℚ)),
      lookup (optimizeIndex st).inverted_index t = some ps → 2 ≤ ps.length)
    ∧ (∀ (t : Str) (ps : List (Str × ℚ)),
      lookup st.inverted_index t = some ps → 2 ≤ ps.length →
        lookup (optimizeIndex st).inverted_index t = some ps) := by
  constructor
  · intro t ps h
    exact lookup_filter_min2 h
  · intro t ps h hlen
    exact lookup_filter_keeps h hlen

/-- C7 witness: on a concrete index, the one-posting term `rare` is gone
after optimization while the two-posting term `seen` keeps its posting list
unchanged. -/
theorem c7_optimizer_witness :
    2 ≤ [(pyStr "docx", (2:ℚ)), (pyStr "docy", 1)].length
    ∧ lookup (optimizeIndex pruneState).inverted_index (pyStr "seen")
        = some [(pyStr "docx", 2), (pyStr "docy", 1)]
    ∧ lookup (optimizeIndex pruneState).inverted_index (pyStr "rare") = none :=
  ⟨by decide,
   (c7_optimizer_prunes_rare_terms pruneState).2 (pyStr "seen")
     [(pyStr "docx", 2), (pyStr "docy", 1)] (by decide) (by decide),
   by decide⟩

/-! Claim C8: idempotence of the optimization pipeline. -/

theorem truncScan_some {m : Nat} {l : Str} {i nl e : Nat}
    (h : truncScan m l i nl = some e) (hnl : nl ≤ 2) :
    ∃ j, e = i + j ∧ nl + (l.take j).countP (fun c => c == '\n') ≤ 2 := by
  induction l generalizing i nl with
  | nil => cases h
  | cons c rest ih =>
    unfold truncScan at h
    by_cases hc : c = '\n'
    · rw [if_pos hc] at h
      by_cases h3 : nl + 1 ≥ 3
      · rw [if_pos h3] at h
        cases h
        exact ⟨0, rfl, by simpa using hnl⟩
      · rw [if_neg h3] at h
        by_cases hi : i ≥ m
        · rw [if_pos hi] at h
          cases h
          exact ⟨0, rfl, by simpa using hnl⟩
        · rw [if_neg hi] at h
          rcases ih h (by omega) with ⟨j, hj, hcnt⟩
          refine ⟨j + 1, by omega, ?_⟩
          rw [List.take_succ_cons, List.countP_cons]
          simp only [hc, beq_self_eq_true, if_pos]
          omega
    · rw [if_neg hc] at h
      by_cases hi : i ≥ m
      · rw [if_pos hi] at h
        cases h
        exact ⟨0, rfl, by simpa using hnl⟩
      · rw [if_neg hi] at h
        rcases ih h hnl with ⟨j, hj, hcnt⟩
        refine ⟨j + 1, by omega, ?_⟩
        rw [List.take_succ_cons, List.countP_cons]
        have : (c == '\n') = false := beq_eq_false_iff_ne.2 hc
        simp only [this, Bool.false_eq_true, if_false]
        omega

theorem truncScan_none {m : Nat} {l : Str} {i nl : Nat}
    (h : truncScan m l i nl = none) (hnl : nl ≤ 2) :
    nl + l.countP (fun c => c == '\n') ≤ 2 := by
  induction l generalizing i nl with
  | nil => simpa using hnl
  | cons c rest ih =>
    unfold truncScan at h
    by_cases hc : c = '\n'
    · rw [if_pos hc] at h
      by_cases h3 : nl + 1 ≥ 3
      · rw [if_pos h3] at h; cases h
      · rw [if_neg h3] at h
        by_cases hi : i ≥ m
        · rw [if_pos hi] at h; cases h
        · rw [if_neg hi] at h
          have := ih h (by omega)
          rw [List.countP_cons]
          simp only [hc, beq_self_eq_true, if_pos]
          omega
    · rw [if_neg hc] at h
      by_cases hi : i ≥ m
      · rw [if_pos hi] at h; cases h
      · rw [if_neg hi] at h
        have := ih h hnl
        rw [List.countP_cons]
        have hb : (c == '\n') = false := beq_eq_false_iff_ne.2 hc
        simp only [hb, Bool.false_eq_true, if_false]
        omega

theorem truncScan_stays_none {m : Nat} {l : Str} {i nl : Nat}
    (hlen : i + l.length ≤ m) (hcnt : nl + l.countP (fun c => c == '\n') ≤ 2) :
    truncScan m l i nl = none := by
  induction l generalizing i nl with
  | nil => rfl
  | cons c rest ih =>
    unfold truncScan
    simp only [List.length_cons] at hlen
    rw [List.countP_cons] at hcnt
    by_cases hc : c = '\n'
    · rw [if_pos hc]
      simp only [hc, beq_self_eq_true, if_pos] at hcnt
      rw [if_neg (by omega), if_neg (by omega)]
      exact ih (by omega) (by omega)
    · rw [if_neg hc]
      have hb : (c == '\n') = false := beq_eq_false_iff_ne.2 hc
      simp only [hb, Bool.false_eq_true, if_false] at hcnt
      rw [if_neg (by omega)]
      exact ih (by omega) (by omega)

theorem truncScan_cons_pos {m : Nat} {c : Char} {rest : Str} {e : Nat}
    (hm : 0 < m) (h : truncScan m (c :: rest) 0 0 = some e) : 1 ≤ e := by
  unfold truncScan at h
  by_cases hc : c = '\n'
  · rw [if_pos hc, if_neg (by omega), if_neg (by omega)] at h
    rcases truncScan_some h (by omega) with ⟨j, hj, _⟩
    omega
  · rw [if_neg hc, if_neg (by omega)] at h
    rcases truncScan_some h (by omega) with ⟨j, hj, _⟩
    omega

theorem truncateSnippet_newlines_le {m : Nat} (hm : 0 < m) (s : Str) :
    (truncateSnippet m s).countP (fun c => c == '\n') ≤ 2 := by
  unfold truncateSnippet
  split
  · simp
  · rename_i hs
    have hdots : (pyStr "...").countP (fun c => c == '\n') = 0 := by decide
    cases hscan : truncScan m s 0 0 with
    | some e =>
      simp only [hscan]
      rcases truncScan_some hscan (by omega) with ⟨j, hj, hcnt⟩
      have hj' : e = j := by omega
      subst hj'
      split
      · rw [List.countP_append]
        omega
      · rename_i hj0
        cases s with
        | nil => exact absurd rfl hs
        | cons c rest =>
          have := truncScan_cons_pos hm hscan
          omega
    | none =>
      simp only [hscan]
      have hcnt := truncScan_none hscan (by omega)
      split
      · rw [List.countP_append]
        have h1 : (List.take m s).countP (fun c => c == '\n')
            ≤ s.countP (fun c => c == '\n') :=
          List.Sublist.countP_le _ (List.take_sublist _ _)
        omega
      · omega

theorem truncateSnippet_eq_self {m : Nat} {s : Str}
    (hlen : s.length ≤ m) (hcnt : s.countP (fun c => c == '\n') ≤ 2) :
    truncateSnippet m s = s := by
  unfold truncateSnippet
  split
  · rename_i hs; exact hs.symm
  · rw [truncScan_stays_none (by omega) (by omega)]
    rw [if_neg (by omega)]

theorem snippet_pipe_idem (s : Str) :
    (truncateSnippet 200 ((truncateSnippet 200 s).take 100)).take 100
      = (truncateSnippet 200 s).take 100 := by
  have hlen : ((truncateSnippet 200 s).take 100).length ≤ 200 := by
    rw [List.length_take]
    omega
  have hcnt : ((truncateSnippet 200 s).take 100).countP (fun c => c == '\n') ≤ 2 :=
    le_trans (List.Sublist.countP_le _ (List.take_sublist _ _))
      (truncateSnippet_newlines_le (by norm_num) s)
  rw [truncateSnippet_eq_self hlen hcnt, List.take_take]
  rfl

/-- C8: the optimization is idempotent.  The full pipeline of
`optimize_index.py` — the `truncate_content_snippet` pre-pass followed by
`_optimize_index` (low-frequency pruning, snippet cap, removal of the
`confidence` and `method` fields) — applied twice gives the same document
map, inverted index, document lengths and average document length as applied
once; and so does `_optimize_index` on its own. -/
theorem c8_optimization_idempotent (st : IndexState) :
    fullOptimize (fullOptimize st) = fullOptimize st
    ∧ optimizeIndex (optimizeIndex st) = optimizeIndex st := by
  have hfilter : ∀ (inv : List (Str × List (Str × ℚ))),
      (inv.filter (fun p => p.2.length ≥ 2)).filter (fun p => p.2.length ≥ 2)
        = inv.filter (fun p => p.2.length ≥ 2) := by
    intro inv
    rw [List.filter_filter]
    apply List.filter_congr
    intro p _
    rw [Bool.and_self]
  constructor
  · simp only [fullOptimize, truncateSnippets, optimizeIndex, List.map_map]
    congr 1
    · apply List.map_congr_left
      intro p _
      simp only [Function.comp_apply, truncateDocInfo]
      rw [snippet_pipe_idem]
    · exact hfilter _
  · simp only [optimizeIndex, List.map_map]
    congr 1
    · apply List.map_congr_left
      intro p _
      simp only [Function.comp_apply, truncateDocInfo, List.take_take, min_self]
    · exact hfilter _

/-! Claim C9: hybrid fallback equivalence. -/

theorem searchOpt_bert_irrelevant {st : IndexState} (log : ℚ → ℚ) (q : Str) (k : Nat)
    (b b' : Except Unit (List (Str × ℚ)))
    (hflag : st.use_hybrid_search = false) :
    searchOpt st log q k b = searchOpt st log q k b' := by
  simp [searchOpt, hflag]

/-- C9: when the vector index cannot be loaded (its files are absent, so
`BertEmbeddings.load_index` returns false), `load_optimized_index` disables
hybrid search, and the resulting engine's `search` is exactly the BM25-only
engine's `search`, for every query, every `top_k`, and every outcome of the
vector layer — a vector-layer failure never reaches the caller. -/
theorem c9_hybrid_fallback_equivalence (st : IndexState) (log : ℚ → ℚ) (q : Str)
    (k : Nat) (r ok : Bool) (b b' : Except Unit (List (Str × ℚ))) :
    (loadOptimizedIndex st r false).use_hybrid_search = false
    ∧ searchOpt (loadOptimizedIndex st r false) log q k b
        = searchOpt (loadOptimizedIndex st false ok) log q k b' := by
  have h0 : (loadOptimizedIndex st r false).use_hybrid_search = false := by
    simp [loadOptimizedIndex]
  have h1 : loadOptimizedIndex st r false = loadOptimizedIndex st false ok := by
    simp [loadOptimizedIndex]
  refine ⟨h0, ?_⟩
  rw [← h1]
  exact searchOpt_bert_irrelevant log q k b b' h0

/-! Claim C10: excluded domains never appear in results. -/

theorem isSubstr_iff {needle hay : Str} : isSubstr needle hay = true ↔ needle <:+: hay := by
  induction hay with
  | nil =>
    simp only [isSubstr, List.infix_nil, beq_iff_eq]
  | cons c t ih =>
    simp only [isSubstr, Bool.or_eq_true, List.infix_cons_iff, ih,
      List.isPrefixOf_iff_prefix]

/-- C10: the optimized engine never returns a result whose URL contains any
of the excluded substrings (`open.spotify.com`, `spotify.com`,
`podcasts.apple.com`, `podcasts.google.com`): such documents are skipped in
the result-formatting loop even when their score passes the threshold. -/
theorem c10_no_excluded_domains (st : IndexState) (log : ℚ → ℚ) (query : Str)
    (topK : Nat) (b : Except Unit (List (Str × ℚ))) (r : OptResult)
    (hr : r ∈ searchOpt st log query topK b)
    (dom : Str) (hdom : dom ∈ excludedDomains) :
    ¬ dom <:+: r.url := by
  simp only [searchOpt] at hr
  split at hr
  · exact absurd hr (List.not_mem_nil _)
  split at hr
  · exact absurd hr (List.not_mem_nil _)
  rcases formatOpt_spec hr with h0 | ⟨d, s, info, _, _, _, hexcl, _, hurl, _, _⟩
  · exact absurd h0 (List.not_mem_nil _)
  intro hinfix
  rw [hurl] at hinfix
  have hlower : dom.map Char.toLower = dom := by
    have hall : excludedDomains.all (fun dm => dm.map Char.toLower == dm) = true := by decide
    have := List.all_eq_true.1 hall dom hdom
    exact beq_iff_eq.1 this
  have h1 : dom <:+: lowerStr info.url := by
    have := List.IsInfix.map Char.toLower hinfix
    rw [hlower] at this
    exact this
  have h2 := List.any_eq_false.1 hexcl dom hdom
  exact h2 (isSubstr_iff.2 h1)

/-- C10 witness: the theorem applied to the concrete search that returns
`docxResult`, for the domain `spotify.com`. -/
theorem c10_no_excluded_domains_witness : ¬ (pyStr "spotify.com") <:+: docxResult.url :=
  c10_no_excluded_domains exState logModel (pyStr "alpha zz beta") 5 (Except.error ())
    docxResult (by decide) (pyStr "spotify.com") (by decide)
